import Mathlib

/-!
Shallow embedding of the `oni_api_client` session layer
(`src/oni_api_client/client.py` and `src/oni_api_client/models.py`)
and proofs about its request/response correlation machinery, its event
queue, and its payload construction.

Conventions of the embedding:
* Decoded JSON values are the inductive `JValue` (Python dicts become
  association lists, preserving insertion order; numbers become `ℚ`).
* Python dicts keyed by request id are association lists `List (String × α)`
  read through `lookupA`.
* Code that can raise is modelled with `Option` (`none` = an exception was
  raised at that point).
* The concurrent behaviour of the client (the command receive loop,
  `asyncio.wait_for` timers, the reconnect loop, `disconnect()`) is modelled
  as a small-step machine `step : CmdState → Ev → Option CmdState` whose
  events are exactly the atomic segments of the Python coroutines: a segment
  runs without interleaving between two `await` points, which is the
  scheduling guarantee of a single-threaded asyncio loop.
-/

namespace OniApi

/-- Decoded JSON value (the result of `json.loads`); Python dicts keep
insertion order, hence the association-list representation of objects. -/
inductive JValue where
  | null
  | bool (b : Bool)
  | num (q : ℚ)
  | str (s : String)
  | arr (elems : List JValue)
  | obj (fields : List (String × JValue))

/-- First binding of key `k` in an association list (Python `dict` lookup;
dict keys are unique, so "first" is exact). -/
def lookupA {α : Type} : List (String × α) → String → Option α
  | [], _ => none
  | (k2, v) :: rest, k => if k2 = k then some v else lookupA rest k

/-- Keys of an association list, in order. -/
def keysA {α : Type} (m : List (String × α)) : List String :=
  m.map Prod.fst

/-- Rewrite every value of an association list in place, keeping keys;
used to model in-place mutation of values reached through the dict. -/
def mapVal {α : Type} (g : String → α → α) (m : List (String × α)) :
    List (String × α) :=
  m.map (fun p => (p.1, g p.1 p.2))

/-- Overwrite the value at key `k` (`d[k] = v` for a key already present;
on an absent key this is the identity, which is how it is used below). -/
def setA {α : Type} (m : List (String × α)) (k : String) (v : α) :
    List (String × α) :=
  mapVal (fun k2 w => if k2 = k then v else w) m

theorem lookupA_cons {α : Type} (k2 : String) (v : α) (m : List (String × α))
    (k : String) :
    lookupA ((k2, v) :: m) k = if k2 = k then some v else lookupA m k := rfl

theorem keysA_mapVal {α : Type} (g : String → α → α) (m : List (String × α)) :
    keysA (mapVal g m) = keysA m := by
  simp [keysA, mapVal, List.map_map, Function.comp]

theorem lookupA_mapVal {α : Type} (g : String → α → α) (m : List (String × α))
    (k : String) :
    lookupA (mapVal g m) k = (lookupA m k).map (g k) := by
  induction m with
  | nil => rfl
  | cons p m ih =>
    simp only [mapVal, List.map_cons] at ih ⊢
    by_cases h : p.1 = k
    · subst h; simp [lookupA]
    · simp [lookupA, h, ih]

theorem lookupA_setA_self {α : Type} (m : List (String × α)) (k : String)
    (v : α) :
    lookupA (setA m k v) k = (lookupA m k).map (fun _ => v) := by
  rw [setA, lookupA_mapVal]
  cases lookupA m k <;> simp

theorem lookupA_setA_ne {α : Type} (m : List (String × α)) (k k2 : String)
    (v : α) (h : k2 ≠ k) :
    lookupA (setA m k v) k2 = lookupA m k2 := by
  rw [setA, lookupA_mapVal]
  cases lookupA m k2 <;> simp [h]

theorem keysA_setA {α : Type} (m : List (String × α)) (k : String) (v : α) :
    keysA (setA m k v) = keysA m :=
  keysA_mapVal _ m

theorem lookupA_isSome_iff_mem_keysA {α : Type} (m : List (String × α))
    (k : String) :
    (lookupA m k).isSome ↔ k ∈ keysA m := by
  induction m with
  | nil => simp [lookupA, keysA]
  | cons p m ih =>
    by_cases h : p.1 = k
    · subst h; simp [lookupA, keysA]
    · simp [lookupA, keysA, h, ih, Ne.symm h]

theorem lookupA_eq_none_of_not_mem {α : Type} (m : List (String × α))
    (k : String) (h : k ∉ keysA m) : lookupA m k = none := by
  cases hl : lookupA m k with
  | none => rfl
  | some v =>
    exact absurd ((lookupA_isSome_iff_mem_keysA m k).mp (by simp [hl])) h

/-- `data.get(k, dflt)` on a decoded JSON value: returns the stored value
(or the default when the key is absent) on objects, and raises
(`AttributeError`, modelled as `none`) on anything that is not a dict. -/
def getD (data : JValue) (k : String) (dflt : JValue) : Option JValue :=
  match data with
  | JValue.obj fields => some ((lookupA fields k).getD dflt)
  | _ => none

/-!
## `src/oni_api_client/models.py`

Python dataclass fields are dynamically typed: `from_dict` stores whatever
value `data.get` produced, so the embedded record fields have type `JValue`
(except sub-records that are decoded recursively). A decoder returns `none`
exactly where the Python code would raise.
-/

/-- `Vector2` (models.py lines 7-14). -/
structure Vector2 where
  x : JValue
  y : JValue

/-- `Vector2.from_dict` (models.py lines 12-14). -/
def Vector2.fromDict (data : JValue) : Option Vector2 :=
  (getD data "x" (JValue.num 0)).bind fun vx =>
  (getD data "y" (JValue.num 0)).bind fun vy =>
  some ⟨vx, vy⟩

/-- `CellInfo` (models.py lines 17-26). -/
structure CellInfo where
  position : Vector2
  temperature : JValue
  pressure : JValue
  mass : JValue
  element : JValue
  solid : JValue
  liquid : JValue
  gas : JValue

/-- `CellInfo.from_dict` (models.py lines 28-39). -/
def CellInfo.fromDict (data : JValue) : Option CellInfo :=
  (getD data "position" (JValue.obj [])).bind fun pv =>
  (Vector2.fromDict pv).bind fun pos =>
  (getD data "temperature" (JValue.num 0)).bind fun t =>
  (getD data "pressure" (JValue.num 0)).bind fun pr =>
  (getD data "mass" (JValue.num 0)).bind fun m =>
  (getD data "element" (JValue.str "")).bind fun el =>
  (getD data "solid" (JValue.bool false)).bind fun so =>
  (getD data "liquid" (JValue.bool false)).bind fun li =>
  (getD data "gas" (JValue.bool false)).bind fun ga =>
  some ⟨pos, t, pr, m, el, so, li, ga⟩

/-- `BuildingInfo` (models.py lines 42-51). -/
structure BuildingInfo where
  id : JValue
  name : JValue
  position : Vector2
  enabled : JValue
  health : JValue
  maxHealth : JValue
  temperature : JValue
  storage : JValue

/-- `BuildingInfo.from_dict` (models.py lines 53-64). -/
def BuildingInfo.fromDict (data : JValue) : Option BuildingInfo :=
  (getD data "id" (JValue.str "")).bind fun i =>
  (getD data "name" (JValue.str "")).bind fun n =>
  (getD data "position" (JValue.obj [])).bind fun pv =>
  (Vector2.fromDict pv).bind fun pos =>
  (getD data "enabled" (JValue.bool false)).bind fun en =>
  (getD data "health" (JValue.num 0)).bind fun h =>
  (getD data "maxHealth" (JValue.num 100)).bind fun mh =>
  (getD data "temperature" (JValue.num 0)).bind fun t =>
  (getD data "storage" (JValue.obj [])).bind fun st =>
  some ⟨i, n, pos, en, h, mh, t, st⟩

/-- `ChoreStatusInfo` (models.py lines 67-73). -/
structure ChoreStatusInfo where
  id : JValue
  name : JValue
  priority : JValue
  assignedTo : JValue
  progress : JValue

/-- `ChoreStatusInfo.from_dict` (models.py lines 75-83); `data.get('assignedTo')`
has no default, i.e. its default is Python `None`, embedded as `JValue.null`. -/
def ChoreStatusInfo.fromDict (data : JValue) : Option ChoreStatusInfo :=
  (getD data "id" (JValue.str "")).bind fun i =>
  (getD data "name" (JValue.str "")).bind fun n =>
  (getD data "priority" (JValue.num 0)).bind fun p =>
  (getD data "assignedTo" JValue.null).bind fun a =>
  (getD data "progress" (JValue.num 0)).bind fun pr =>
  some ⟨i, n, p, a, pr⟩

/-- `DuplicantState` (models.py lines 86-99). -/
structure DuplicantState where
  id : JValue
  name : JValue
  position : Vector2
  health : JValue
  stress : JValue
  calories : JValue
  oxygen : JValue
  bladder : JValue
  stamina : JValue
  currentTask : JValue
  skills : JValue
  traits : JValue

/-- `DuplicantState.from_dict` (models.py lines 101-116). -/
def DuplicantState.fromDict (data : JValue) : Option DuplicantState :=
  (getD data "id" (JValue.str "")).bind fun i =>
  (getD data "name" (JValue.str "")).bind fun n =>
  (getD data "position" (JValue.obj [])).bind fun pv =>
  (Vector2.fromDict pv).bind fun pos =>
  (getD data "health" (JValue.num 100)).bind fun h =>
  (getD data "stress" (JValue.num 0)).bind fun st =>
  (getD data "calories" (JValue.num 4000)).bind fun ca =>
  (getD data "oxygen" (JValue.num 100)).bind fun ox =>
  (getD data "bladder" (JValue.num 0)).bind fun bl =>
  (getD data "stamina" (JValue.num 100)).bind fun sta =>
  (getD data "currentTask" JValue.null).bind fun ct =>
  (getD data "skills" (JValue.arr [])).bind fun sk =>
  (getD data "traits" (JValue.arr [])).bind fun tr =>
  some ⟨i, n, pos, h, st, ca, ox, bl, sta, ct, sk, tr⟩

/-- `ResourceInfo` (models.py lines 119-124). -/
structure ResourceInfo where
  name : JValue
  available : JValue
  capacity : JValue
  deltaPerCycle : JValue

/-- `ResourceInfo.from_dict` (models.py lines 126-133). -/
def ResourceInfo.fromDict (data : JValue) : Option ResourceInfo :=
  (getD data "name" (JValue.str "")).bind fun n =>
  (getD data "available" (JValue.num 0)).bind fun a =>
  (getD data "capacity" (JValue.num 0)).bind fun c =>
  (getD data "deltaPerCycle" (JValue.num 0)).bind fun d =>
  some ⟨n, a, c, d⟩

/-- `WorldState` (models.py lines 136-143). -/
structure WorldState where
  cycle : JValue
  timeOfDay : JValue
  worldSeed : JValue
  asteroidName : JValue
  temperatureRange : JValue × JValue
  pressureRange : JValue × JValue

/-- `(r[0], r[1]) if len(r) >= 2 else (0, 0)` (models.py lines 154-155); on a
non-sequence value `len` raises (we model only JSON arrays as sequences: the
payloads of the claims under study never store strings or dicts here). -/
def rangePair (v : JValue) : Option (JValue × JValue) :=
  match v with
  | JValue.arr (a :: b :: _) => some (a, b)
  | JValue.arr _ => some (JValue.num 0, JValue.num 0)
  | _ => none

/-- `WorldState.from_dict` (models.py lines 145-156); the Python default
`[0, 0]` becomes `JValue.arr [num 0, num 0]`. -/
def WorldState.fromDict (data : JValue) : Option WorldState :=
  (getD data "temperatureRange" (JValue.arr [JValue.num 0, JValue.num 0])).bind fun trv =>
  (getD data "pressureRange" (JValue.arr [JValue.num 0, JValue.num 0])).bind fun prv =>
  (getD data "cycle" (JValue.num 0)).bind fun cy =>
  (getD data "timeOfDay" (JValue.num 0)).bind fun td =>
  (getD data "worldSeed" (JValue.num 0)).bind fun ws =>
  (getD data "asteroidName" (JValue.str "")).bind fun an =>
  (rangePair trv).bind fun tr =>
  (rangePair prv).bind fun pr =>
  some ⟨cy, td, ws, an, tr, pr⟩

/-- `[X.from_dict(e) for e in xs]`: decode every element, propagating the
first exception (models.py lines 175-179). -/
def decodeList {α : Type} (dec : JValue → Option α) : List JValue → Option (List α)
  | [] => some []
  | x :: xs =>
    (dec x).bind fun a =>
    (decodeList dec xs).bind fun as2 =>
    some (a :: as2)

/-- Iterating `data.get(key, [])`: a JSON array iterates over its elements;
anything else raises inside the comprehension (strings would iterate over
characters and then raise inside the element decoder's `.get`). -/
def listDecode {α : Type} (dec : JValue → Option α) (v : JValue) :
    Option (List α) :=
  match v with
  | JValue.arr xs => decodeList dec xs
  | _ => none

/-- Stands in for `datetime.now().isoformat()` (models.py line 173); the
claims under verification never depend on its value. -/
def defaultNowIso : String := "1970-01-01T00:00:00"

/-- Model of `datetime.fromisoformat` (stdlib, models.py line 173): it raises
`TypeError` on non-strings; we model parsing of strings as succeeding, since
the claims under verification never involve a malformed timestamp string. -/
def fromisoformat (v : JValue) : Option String :=
  match v with
  | JValue.str s => some s
  | _ => none

/-- `ColonyState` (models.py lines 159-168). -/
structure ColonyState where
  timestamp : String
  world : WorldState
  duplicants : List DuplicantState
  buildings : List BuildingInfo
  resources : List ResourceInfo
  chores : List ChoreStatusInfo
  cells : List CellInfo
  alerts : JValue

/-- `ColonyState.from_dict` (models.py lines 170-181). -/
def ColonyState.fromDict (data : JValue) : Option ColonyState :=
  (getD data "timestamp" (JValue.str defaultNowIso)).bind fun tsv =>
  (fromisoformat tsv).bind fun ts =>
  (getD data "world" (JValue.obj [])).bind fun wv =>
  (WorldState.fromDict wv).bind fun w =>
  (getD data "duplicants" (JValue.arr [])).bind fun dv =>
  (listDecode DuplicantState.fromDict dv).bind fun dups =>
  (getD data "buildings" (JValue.arr [])).bind fun bv =>
  (listDecode BuildingInfo.fromDict bv).bind fun blds =>
  (getD data "resources" (JValue.arr [])).bind fun rv =>
  (listDecode ResourceInfo.fromDict rv).bind fun ress =>
  (getD data "chores" (JValue.arr [])).bind fun cv =>
  (listDecode ChoreStatusInfo.fromDict cv).bind fun chs =>
  (getD data "cells" (JValue.arr [])).bind fun ev =>
  (listDecode CellInfo.fromDict ev).bind fun cls =>
  (getD data "alerts" (JValue.arr [])).bind fun al =>
  some ⟨ts, w, dups, blds, ress, chs, cls, al⟩

theorem decodeList_length {α : Type} (dec : JValue → Option α)
    (xs : List JValue) (ys : List α) (h : decodeList dec xs = some ys) :
    ys.length = xs.length := by
  induction xs generalizing ys with
  | nil => simp [decodeList] at h; subst h; rfl
  | cons x xs ih =>
    simp only [decodeList, Option.bind_eq_some] at h
    obtain ⟨a, _, as2, has2, hys⟩ := h
    cases hys
    simp [ih as2 has2]

/-!
## `src/oni_api_client/client.py`: frames, clamping, timeout constant
-/

/-- The frame built by `send_request` (client.py lines 149-153). -/
def buildFrame (requestId action : String) (payload : JValue) : JValue :=
  JValue.obj [("requestId", JValue.str requestId),
              ("action", JValue.str action),
              ("payload", payload)]

/-- `max(0, min(3, speed))` (client.py line 238). -/
def clampSpeed (speed : ℤ) : ℤ := max 0 (min 3 speed)

/-- The payload sent by `set_speed` (client.py lines 237-239). -/
def setSpeedPayload (speed : ℤ) : JValue :=
  JValue.obj [("speed", JValue.num (clampSpeed speed))]

/-- `max(1, min(9, priority))` (client.py line 210). -/
def clampPriority (priority : ℤ) : ℤ := max 1 (min 9 priority)

/-- The payload sent by `set_priority` (client.py lines 208-211). -/
def setPriorityPayload (cellX cellY priority : ℤ) : JValue :=
  JValue.obj [("cell", JValue.obj [("x", JValue.num cellX),
                                   ("y", JValue.num cellY)]),
              ("priority", JValue.num (clampPriority priority))]

/-- The timeout passed to `asyncio.wait_for` (client.py line 164): a constant
30.0 seconds; `send_request` (line 134) has no timeout parameter. -/
def requestTimeout : ℚ := 30

/-- Time-domain view of one request's wait (client.py lines 159-169): a
matching response arriving `arrival` seconds after the send resolves the
request, a later one finds the caller already timed out. -/
def waitResolves (arrival : ℚ) : Bool := decide (arrival ≤ requestTimeout)

/-- Modelled from the spec (§4.2): `sendRequest(action, payload, timeout)`
"waits up to `timeout` for resolution" — the per-request, caller-supplied
timeout the spec describes. Stated for comparison with `waitResolves`, which
is what the code does. -/
def specWaitResolves (timeout arrival : ℚ) : Bool := decide (arrival ≤ timeout)

/-!
## Event channel (client.py lines 122-132 and 269-282)

The `asyncio.Queue` is FIFO: `put` appends, `get` takes the oldest element.
An inbound raw message is modelled as `Option JValue`: `none` is a message on
which `json.loads` raised `JSONDecodeError`.
-/

/-- One iteration of `_handle_event_messages` (client.py lines 124-132):
a decoded frame is appended to the queue, a malformed one is logged and
dropped. -/
def handleEventMessage (q : List JValue) (msg : Option JValue) : List JValue :=
  match msg with
  | some data => q ++ [data]
  | none => q

/-- The event receive loop over a burst of inbound messages. -/
def processEvents (q : List JValue) (msgs : List (Option JValue)) : List JValue :=
  msgs.foldl handleEventMessage q

/-- `get_events` (client.py lines 269-282): the next queued event, or `None`
(not an error) when the queue stays empty past the timeout. -/
def getEvent : List JValue → Option JValue × List JValue
  | [] => (none, [])
  | x :: xs => (some x, xs)

/-- Repeatedly call `get_events` up to `n` times, collecting the events
returned; stops at the first `None`. -/
def dequeueUpTo : Nat → List JValue → List JValue
  | 0, _ => []
  | Nat.succ n, q =>
    match getEvent q with
    | (some x, rest) => x :: dequeueUpTo n rest
    | (none, _) => []

/-!
## Command channel as a small-step machine (client.py lines 59-172)

State of an `asyncio.Future` held for one request. A future, once created,
is never deleted from `futures` (in Python it lives as long as someone
references it); the correlation table `pending_requests` is tracked
separately as the list of its keys. `done()` is true in every state but
`pending`.
-/
inductive FState where
  | pending
  | resolved (data : JValue)
  /-- cancelled by the `asyncio.wait_for` timer (client.py line 164). -/
  | timerCancelled
  /-- cancelled by `future.cancel()` in `disconnect` (client.py line 56). -/
  | disconnectCancelled

/-- `future.done()`. -/
def FState.done : FState → Bool
  | .pending => false
  | _ => true

/-- What a `send_request` caller ends up observing. -/
inductive Outcome where
  /-- the response returned at client.py line 165. -/
  | response (data : JValue)
  /-- `ConnectionError` raised at client.py line 146. -/
  | connError
  /-- the exception of a failed `command_ws.send`, re-raised at line 172. -/
  | sendError
  /-- `TimeoutError` raised at client.py line 169. -/
  | timedOut
  /-- `asyncio.CancelledError` propagating out of `wait_for` after
  `disconnect` cancelled the future; being a `BaseException` it is caught by
  neither `except` clause at lines 167/170. -/
  | cancelled

/-- One `send_request` invocation: either still awaiting `wait_for`, or
finished with its outcome. -/
inductive Caller where
  | waiting
  | finished (o : Outcome)

/-- `data.get('requestId')` followed by the truthiness test at client.py
line 110: only a nonempty string can also pass the `in self.pending_requests`
membership test (the table's keys are `uuid4` strings), so every other value
takes the log-and-drop branch. -/
def frameRequestId (f : JValue) : Option String :=
  match getD f "requestId" JValue.null with
  | some (JValue.str s) => if s = "" then none else some s
  | _ => none

/-- Shared state of the command channel, the callers of `send_request`, and
the maintenance loop (client.py lines 22-31, 59-79, 103-120, 134-172).
`log` is the history of outcomes delivered to callers, in delivery order. -/
structure CmdState where
  /-- `command_ws is not None` (a live websocket object is truthy). -/
  ws : Bool
  /-- `_running`. -/
  running : Bool
  /-- the keys of `pending_requests`, in insertion order. -/
  table : List String
  /-- every future ever created by `send_request`, with its current state. -/
  futures : List (String × FState)
  /-- every `send_request` invocation, keyed by its `uuid4` request id. -/
  callers : List (String × Caller)
  /-- outcomes delivered to callers so far. -/
  log : List (String × Outcome)

/-- `if not future.done(): future.set_result(data)` (client.py lines 112-113). -/
def resolveFuture (st : FState) (d : JValue) : FState :=
  match st with
  | FState.pending => FState.resolved d
  | st => st

/-- `if not future.done(): future.cancel()` (client.py lines 55-56). -/
def cancelFuture (st : FState) : FState :=
  match st with
  | FState.pending => FState.disconnectCancelled
  | st => st

/-- The `for future in self.pending_requests.values()` loop of `disconnect`
(client.py lines 54-56): cancels exactly the futures still in the table. -/
def cancelTableFutures (tbl : List String) (fs : List (String × FState)) :
    List (String × FState) :=
  mapVal (fun k st => if k ∈ tbl then cancelFuture st else st) fs

/-- `pending_requests.pop(rid, ...)` restricted to the key list: the table's
keys are unique `uuid4` strings, so removing every occurrence removes the
one entry (and is a no-op when the key is absent, like `pop(rid, None)`). -/
def popKey (tbl : List String) (rid : String) : List String :=
  tbl.filter (fun k => decide (k ≠ rid))

theorem popKey_not_mem (tbl : List String) (rid : String) :
    rid ∉ popKey tbl rid := by
  simp [popKey]

theorem mem_popKey {tbl : List String} {rid k : String} :
    k ∈ popKey tbl rid ↔ k ∈ tbl ∧ k ≠ rid := by
  simp [popKey]

theorem popKey_nodup {tbl : List String} (h : tbl.Nodup) (rid : String) :
    (popKey tbl rid).Nodup :=
  h.filter _

/-- One iteration of `_handle_command_messages` on a decoded frame
(client.py lines 107-115): a known id is popped from the table and its
future resolved if not yet done; an absent or unknown id is logged and the
frame dropped, leaving the state untouched. -/
def handleCommandMessage (s : CmdState) (f : JValue) : CmdState :=
  match frameRequestId f with
  | some rid =>
    if rid ∈ s.table then
      { s with table := popKey s.table rid,
               futures := mapVal
                 (fun k st => if k = rid then resolveFuture st f else st)
                 s.futures }
    else s
  | none => s

/-- The atomic events of the asyncio loop. Every event is one segment of a
coroutine of client.py that runs without an intervening `await` (asyncio
interleaves tasks only at `await` points):

* `sendNoConn rid` — `send_request` called while `command_ws` is `None`:
  lines 145-146, `ConnectionError` before any id is generated.
* `send rid` — lines 148-161 with the `ws.send` completing: the fresh id and
  its pending future are put in the table and the caller enters `wait_for`.
* `sendFailed rid` — lines 148-161 with `ws.send` raising, then lines
  170-172: entry inserted, popped again, the transport exception re-raised.
* `recvFrame f` — one iteration of `_handle_command_messages`, lines 105-115.
* `timeoutFire rid` — the `wait_for` deadline hits while the future is still
  pending: `wait_for` cancels the future (line 164) and will raise
  `TimeoutError` once the cancellation has settled.
* `timeoutRaise rid` — `TimeoutError` surfaces in `send_request`: lines
  167-169, `pending_requests.pop(request_id, None)` then raise.
* `deliver rid` — the resolved future's value is returned: lines 164-165.
* `cancelRaise rid` — `CancelledError` (from a `disconnect`-cancelled
  future) propagates out of `wait_for`; neither `except` clause catches a
  `BaseException`, so no `pop` runs on this path.
* `connLost` — the connection drops: `ConnectionClosed` (or any error)
  unwinds `_handle_command_messages`, and the `finally` at lines 74-75 sets
  `command_ws = None`. Nothing else is touched.
* `reconnected` — the maintenance loop re-enters `websockets.connect`
  successfully, lines 61-65.
* `disconnect` — `disconnect()`, lines 39-57, command-channel part: clears
  `_running`, closes the socket, cancels the still-pending futures in the
  table and clears the table (no `await` between lines 54 and 57). -/
inductive Ev where
  | sendNoConn (rid : String)
  | send (rid : String)
  | sendFailed (rid : String)
  | recvFrame (f : JValue)
  | timeoutFire (rid : String)
  | timeoutRaise (rid : String)
  | deliver (rid : String)
  | cancelRaise (rid : String)
  | connLost
  | reconnected
  | disconnect

/-- Guarded transition function; `none` means the event is not enabled in
this state (its guard, read off the code, does not hold). `uuid4` freshness
is the guard `lookupA s.callers rid = none` on the send events. -/
def step (s : CmdState) : Ev → Option CmdState
  | Ev.sendNoConn rid =>
    if s.ws then none else
    match lookupA s.callers rid with
    | some _ => none
    | none =>
      some { s with
        callers := (rid, Caller.finished Outcome.connError) :: s.callers,
        log := s.log ++ [(rid, Outcome.connError)] }
  | Ev.send rid =>
    if s.ws = false then none else
    match lookupA s.callers rid with
    | some _ => none
    | none =>
      some { s with
        futures := (rid, FState.pending) :: s.futures,
        table := rid :: s.table,
        callers := (rid, Caller.waiting) :: s.callers }
  | Ev.sendFailed rid =>
    if s.ws = false then none else
    match lookupA s.callers rid with
    | some _ => none
    | none =>
      some { s with
        futures := (rid, FState.pending) :: s.futures,
        callers := (rid, Caller.finished Outcome.sendError) :: s.callers,
        log := s.log ++ [(rid, Outcome.sendError)] }
  | Ev.recvFrame f =>
    if s.ws = false then none else some (handleCommandMessage s f)
  | Ev.timeoutFire rid =>
    match lookupA s.callers rid, lookupA s.futures rid with
    | some Caller.waiting, some FState.pending =>
      some { s with futures := setA s.futures rid FState.timerCancelled }
    | _, _ => none
  | Ev.timeoutRaise rid =>
    match lookupA s.callers rid, lookupA s.futures rid with
    | some Caller.waiting, some FState.timerCancelled =>
      some { s with
        table := popKey s.table rid,
        callers := setA s.callers rid (Caller.finished Outcome.timedOut),
        log := s.log ++ [(rid, Outcome.timedOut)] }
    | _, _ => none
  | Ev.deliver rid =>
    match lookupA s.callers rid, lookupA s.futures rid with
    | some Caller.waiting, some (FState.resolved d) =>
      some { s with
        callers := setA s.callers rid (Caller.finished (Outcome.response d)),
        log := s.log ++ [(rid, Outcome.response d)] }
    | _, _ => none
  | Ev.cancelRaise rid =>
    match lookupA s.callers rid, lookupA s.futures rid with
    | some Caller.waiting, some FState.disconnectCancelled =>
      some { s with
        callers := setA s.callers rid (Caller.finished Outcome.cancelled),
        log := s.log ++ [(rid, Outcome.cancelled)] }
    | _, _ => none
  | Ev.connLost =>
    if s.ws then some { s with ws := false } else none
  | Ev.reconnected =>
    if s.ws then none else
    if s.running then some { s with ws := true } else none
  | Ev.disconnect =>
    some { s with
      running := false,
      ws := false,
      futures := cancelTableFutures s.table s.futures,
      table := [] }

/-- Run a sequence of events. -/
def run (s : CmdState) : List Ev → Option CmdState
  | [] => some s
  | e :: evs => (step s e).bind fun s2 => run s2 evs

/-- The state right after `connect()` (client.py lines 33-37): `_running`
set, no connection yet, nothing outstanding. -/
def startState : CmdState :=
  { ws := false, running := true, table := [], futures := [], callers := [],
    log := [] }

end OniApi

namespace OniApi

/-!
## Invariants of the command channel
-/

theorem lookupA_cons_self {α : Type} (k : String) (v : α)
    (m : List (String × α)) : lookupA ((k, v) :: m) k = some v := by
  simp [lookupA]

theorem lookupA_cons_ne {α : Type} (k k2 : String) (v : α)
    (m : List (String × α)) (h : k ≠ k2) :
    lookupA ((k, v) :: m) k2 = lookupA m k2 := by
  simp [lookupA, h]

theorem not_mem_keysA_iff {α : Type} (m : List (String × α)) (k : String) :
    k ∉ keysA m ↔ lookupA m k = none := by
  rw [← lookupA_isSome_iff_mem_keysA]
  cases lookupA m k <;> simp

theorem exists_snd_of_mem_map_fst {β : Type} {l : List (String × β)}
    {k : String} (h : k ∈ l.map Prod.fst) : ∃ b, (k, b) ∈ l := by
  obtain ⟨p, hp, hk⟩ := List.mem_map.mp h
  exact ⟨p.2, by cases p; cases hk; exact hp⟩

theorem isSome_lookupA_cons {α : Type} {m : List (String × α)} {k2 : String}
    (k : String) (v : α) (h : (lookupA m k2).isSome) :
    (lookupA ((k, v) :: m) k2).isSome := by
  by_cases hk : k = k2 <;> simp [lookupA, hk, h]

/-- The state invariant of the command channel: uniqueness of ids, the
correlation-table discipline, and the relation between delivered outcomes
and caller states. `log` records outcomes in the order they were delivered. -/
structure Inv (s : CmdState) : Prop where
  tableNodup : s.table.Nodup
  callersKeysNodup : (keysA s.callers).Nodup
  futuresKeysNodup : (keysA s.futures).Nodup
  futSubCallers : ∀ rid, (lookupA s.futures rid).isSome →
    (lookupA s.callers rid).isSome
  tableSubFutures : ∀ rid, rid ∈ s.table → (lookupA s.futures rid).isSome
  resolvedNotInTable : ∀ rid d,
    lookupA s.futures rid = some (FState.resolved d) → rid ∉ s.table
  discCancelledNotInTable : ∀ rid,
    lookupA s.futures rid = some FState.disconnectCancelled → rid ∉ s.table
  resolvedMatches : ∀ rid d,
    lookupA s.futures rid = some (FState.resolved d) →
    frameRequestId d = some rid
  logNodup : (s.log.map Prod.fst).Nodup
  logFinished : ∀ rid o, (rid, o) ∈ s.log →
    lookupA s.callers rid = some (Caller.finished o)
  finishedLogged : ∀ rid o,
    lookupA s.callers rid = some (Caller.finished o) → (rid, o) ∈ s.log
  finishedNotInTable : ∀ rid o,
    lookupA s.callers rid = some (Caller.finished o) → rid ∉ s.table
  responseMatches : ∀ rid d,
    lookupA s.callers rid = some (Caller.finished (Outcome.response d)) →
    frameRequestId d = some rid

theorem Inv.tableSubCallers {s : CmdState} (h : Inv s) (rid : String)
    (hm : rid ∈ s.table) : (lookupA s.callers rid).isSome :=
  h.futSubCallers rid (h.tableSubFutures rid hm)

theorem Inv.start : Inv startState := by
  constructor <;> simp [startState, keysA, lookupA]

theorem inv_sendNoConn {s : CmdState} {rid : String} (h : Inv s)
    (hfresh : lookupA s.callers rid = none) :
    Inv { s with
      callers := (rid, Caller.finished Outcome.connError) :: s.callers,
      log := s.log ++ [(rid, Outcome.connError)] } := by
  have hridkeys : rid ∉ keysA s.callers := (not_mem_keysA_iff _ _).mpr hfresh
  have hridtab : rid ∉ s.table := fun hm => by
    have h2 := h.tableSubCallers rid hm
    rw [hfresh] at h2; simp at h2
  have hridlog : rid ∉ s.log.map Prod.fst := fun hm => by
    obtain ⟨o2, ho2⟩ := exists_snd_of_mem_map_fst hm
    have h2 := h.logFinished rid o2 ho2
    rw [hfresh] at h2; exact Option.noConfusion h2
  constructor
  · exact h.tableNodup
  · rw [show keysA ((rid, Caller.finished Outcome.connError) :: s.callers)
        = rid :: keysA s.callers from rfl, List.nodup_cons]
    exact ⟨hridkeys, h.callersKeysNodup⟩
  · exact h.futuresKeysNodup
  · intro rid2 hsome
    exact isSome_lookupA_cons _ _ (h.futSubCallers rid2 hsome)
  · exact h.tableSubFutures
  · exact h.resolvedNotInTable
  · exact h.discCancelledNotInTable
  · exact h.resolvedMatches
  · simp only [List.map_append, List.map_cons, List.map_nil]
    rw [List.nodup_append]
    exact ⟨h.logNodup, List.nodup_singleton rid, by simpa using hridlog⟩
  · intro rid2 o2 hmem
    rcases List.mem_append.mp hmem with hold | hnew
    · have hf := h.logFinished rid2 o2 hold
      have hne : rid ≠ rid2 := by
        rintro rfl; rw [hfresh] at hf; exact Option.noConfusion hf
      rw [lookupA_cons_ne _ _ _ _ hne]; exact hf
    · simp only [List.mem_singleton, Prod.mk.injEq] at hnew
      obtain ⟨rfl, rfl⟩ := hnew
      exact lookupA_cons_self _ _ _
  · intro rid2 o2 hf
    by_cases he : rid = rid2
    · subst he
      rw [lookupA_cons_self] at hf
      obtain rfl : Outcome.connError = o2 := by
        injection hf with hh; injection hh
      exact List.mem_append_right _ (by simp)
    · rw [lookupA_cons_ne _ _ _ _ he] at hf
      exact List.mem_append_left _ (h.finishedLogged rid2 o2 hf)
  · intro rid2 o2 hf
    by_cases he : rid = rid2
    · subst he; exact hridtab
    · rw [lookupA_cons_ne _ _ _ _ he] at hf
      exact h.finishedNotInTable rid2 o2 hf
  · intro rid2 d hf
    by_cases he : rid = rid2
    · subst he; rw [lookupA_cons_self] at hf; simp at hf
    · rw [lookupA_cons_ne _ _ _ _ he] at hf
      exact h.responseMatches rid2 d hf

theorem inv_send {s : CmdState} {rid : String} (h : Inv s)
    (hfresh : lookupA s.callers rid = none) :
    Inv { s with
      futures := (rid, FState.pending) :: s.futures,
      table := rid :: s.table,
      callers := (rid, Caller.waiting) :: s.callers } := by
  have hridkeys : rid ∉ keysA s.callers := (not_mem_keysA_iff _ _).mpr hfresh
  have hfut : lookupA s.futures rid = none := by
    cases hl : lookupA s.futures rid with
    | none => rfl
    | some v =>
      have h2 := h.futSubCallers rid (by simp [hl])
      rw [hfresh] at h2; simp at h2
  have hfutkeys : rid ∉ keysA s.futures := (not_mem_keysA_iff _ _).mpr hfut
  have hridtab : rid ∉ s.table := fun hm => by
    have h2 := h.tableSubCallers rid hm
    rw [hfresh] at h2; simp at h2
  constructor
  · exact List.nodup_cons.mpr ⟨hridtab, h.tableNodup⟩
  · rw [show keysA ((rid, Caller.waiting) :: s.callers)
        = rid :: keysA s.callers from rfl, List.nodup_cons]
    exact ⟨hridkeys, h.callersKeysNodup⟩
  · rw [show keysA ((rid, FState.pending) :: s.futures)
        = rid :: keysA s.futures from rfl, List.nodup_cons]
    exact ⟨hfutkeys, h.futuresKeysNodup⟩
  · intro rid2 hsome
    by_cases he : rid = rid2
    · subst he; simp [lookupA_cons_self]
    · rw [lookupA_cons_ne _ _ _ _ he] at hsome
      exact isSome_lookupA_cons _ _ (h.futSubCallers rid2 hsome)
  · intro rid2 hm
    rcases List.mem_cons.mp hm with rfl | hm2
    · simp [lookupA_cons_self]
    · by_cases he : rid = rid2
      · subst he; simp [lookupA_cons_self]
      · rw [lookupA_cons_ne _ _ _ _ he]
        exact h.tableSubFutures rid2 hm2
  · intro rid2 d hf
    by_cases he : rid = rid2
    · subst he; rw [lookupA_cons_self] at hf; simp at hf
    · rw [lookupA_cons_ne _ _ _ _ he] at hf
      intro hm
      rcases List.mem_cons.mp hm with h3 | h3
      · exact he h3.symm
      · exact h.resolvedNotInTable rid2 d hf h3
  · intro rid2 hf
    by_cases he : rid = rid2
    · subst he; rw [lookupA_cons_self] at hf; simp at hf
    · rw [lookupA_cons_ne _ _ _ _ he] at hf
      intro hm
      rcases List.mem_cons.mp hm with h3 | h3
      · exact he h3.symm
      · exact h.discCancelledNotInTable rid2 hf h3
  · intro rid2 d hf
    by_cases he : rid = rid2
    · subst he; rw [lookupA_cons_self] at hf; simp at hf
    · rw [lookupA_cons_ne _ _ _ _ he] at hf
      exact h.resolvedMatches rid2 d hf
  · exact h.logNodup
  · intro rid2 o2 hmem
    have hf := h.logFinished rid2 o2 hmem
    have hne : rid ≠ rid2 := by
      rintro rfl; rw [hfresh] at hf; exact Option.noConfusion hf
    rw [lookupA_cons_ne _ _ _ _ hne]; exact hf
  · intro rid2 o2 hf
    by_cases he : rid = rid2
    · subst he; rw [lookupA_cons_self] at hf; simp at hf
    · rw [lookupA_cons_ne _ _ _ _ he] at hf
      exact h.finishedLogged rid2 o2 hf
  · intro rid2 o2 hf
    by_cases he : rid = rid2
    · subst he; rw [lookupA_cons_self] at hf; simp at hf
    · rw [lookupA_cons_ne _ _ _ _ he] at hf
      intro hm
      rcases List.mem_cons.mp hm with h3 | h3
      · exact he h3.symm
      · exact h.finishedNotInTable rid2 o2 hf h3
  · intro rid2 d hf
    by_cases he : rid = rid2
    · subst he; rw [lookupA_cons_self] at hf; simp at hf
    · rw [lookupA_cons_ne _ _ _ _ he] at hf
      exact h.responseMatches rid2 d hf

theorem inv_sendFailed {s : CmdState} {rid : String} (h : Inv s)
    (hfresh : lookupA s.callers rid = none) :
    Inv { s with
      futures := (rid, FState.pending) :: s.futures,
      callers := (rid, Caller.finished Outcome.sendError) :: s.callers,
      log := s.log ++ [(rid, Outcome.sendError)] } := by
  have hridkeys : rid ∉ keysA s.callers := (not_mem_keysA_iff _ _).mpr hfresh
  have hfut : lookupA s.futures rid = none := by
    cases hl : lookupA s.futures rid with
    | none => rfl
    | some v =>
      have h2 := h.futSubCallers rid (by simp [hl])
      rw [hfresh] at h2; simp at h2
  have hfutkeys : rid ∉ keysA s.futures := (not_mem_keysA_iff _ _).mpr hfut
  have hridtab : rid ∉ s.table := fun hm => by
    have h2 := h.tableSubCallers rid hm
    rw [hfresh] at h2; simp at h2
  have hridlog : rid ∉ s.log.map Prod.fst := fun hm => by
    obtain ⟨o2, ho2⟩ := exists_snd_of_mem_map_fst hm
    have h2 := h.logFinished rid o2 ho2
    rw [hfresh] at h2; exact Option.noConfusion h2
  constructor
  · exact h.tableNodup
  · rw [show keysA ((rid, Caller.finished Outcome.sendError) :: s.callers)
        = rid :: keysA s.callers from rfl, List.nodup_cons]
    exact ⟨hridkeys, h.callersKeysNodup⟩
  · rw [show keysA ((rid, FState.pending) :: s.futures)
        = rid :: keysA s.futures from rfl, List.nodup_cons]
    exact ⟨hfutkeys, h.futuresKeysNodup⟩
  · intro rid2 hsome
    by_cases he : rid = rid2
    · subst he; simp [lookupA_cons_self]
    · rw [lookupA_cons_ne _ _ _ _ he] at hsome
      exact isSome_lookupA_cons _ _ (h.futSubCallers rid2 hsome)
  · intro rid2 hm
    by_cases he : rid = rid2
    · subst he; simp [lookupA_cons_self]
    · rw [lookupA_cons_ne _ _ _ _ he]
      exact h.tableSubFutures rid2 hm
  · intro rid2 d hf
    by_cases he : rid = rid2
    · subst he; rw [lookupA_cons_self] at hf; simp at hf
    · rw [lookupA_cons_ne _ _ _ _ he] at hf
      exact h.resolvedNotInTable rid2 d hf
  · intro rid2 hf
    by_cases he : rid = rid2
    · subst he; rw [lookupA_cons_self] at hf; simp at hf
    · rw [lookupA_cons_ne _ _ _ _ he] at hf
      exact h.discCancelledNotInTable rid2 hf
  · intro rid2 d hf
    by_cases he : rid = rid2
    · subst he; rw [lookupA_cons_self] at hf; simp at hf
    · rw [lookupA_cons_ne _ _ _ _ he] at hf
      exact h.resolvedMatches rid2 d hf
  · simp only [List.map_append, List.map_cons, List.map_nil]
    rw [List.nodup_append]
    exact ⟨h.logNodup, List.nodup_singleton rid, by simpa using hridlog⟩
  · intro rid2 o2 hmem
    rcases List.mem_append.mp hmem with hold | hnew
    · have hf := h.logFinished rid2 o2 hold
      have hne : rid ≠ rid2 := by
        rintro rfl; rw [hfresh] at hf; exact Option.noConfusion hf
      rw [lookupA_cons_ne _ _ _ _ hne]; exact hf
    · simp only [List.mem_singleton, Prod.mk.injEq] at hnew
      obtain ⟨rfl, rfl⟩ := hnew
      exact lookupA_cons_self _ _ _
  · intro rid2 o2 hf
    by_cases he : rid = rid2
    · subst he
      rw [lookupA_cons_self] at hf
      obtain rfl : Outcome.sendError = o2 := by
        injection hf with hh; injection hh
      exact List.mem_append_right _ (by simp)
    · rw [lookupA_cons_ne _ _ _ _ he] at hf
      exact List.mem_append_left _ (h.finishedLogged rid2 o2 hf)
  · intro rid2 o2 hf
    by_cases he : rid = rid2
    · subst he; exact hridtab
    · rw [lookupA_cons_ne _ _ _ _ he] at hf
      exact h.finishedNotInTable rid2 o2 hf
  · intro rid2 d hf
    by_cases he : rid = rid2
    · subst he; rw [lookupA_cons_self] at hf; simp at hf
    · rw [lookupA_cons_ne _ _ _ _ he] at hf
      exact h.responseMatches rid2 d hf

theorem lookupA_mapVal_isSome {α : Type} (g : String → α → α)
    (m : List (String × α)) (k : String) :
    (lookupA (mapVal g m) k).isSome = (lookupA m k).isSome := by
  rw [lookupA_mapVal]; cases lookupA m k <;> simp

theorem inv_resolveFrame {s : CmdState} {f : JValue} {rid : String}
    (h : Inv s) (hrid : frameRequestId f = some rid) (hmem : rid ∈ s.table) :
    Inv { s with
      table := popKey s.table rid,
      futures := mapVal (fun k st => if k = rid then resolveFuture st f else st)
        s.futures } := by
  have hlook : ∀ rid2, rid2 ≠ rid →
      lookupA (mapVal (fun k st => if k = rid then resolveFuture st f else st)
        s.futures) rid2 = lookupA s.futures rid2 := by
    intro rid2 hne
    rw [lookupA_mapVal]
    cases lookupA s.futures rid2 <;> simp [hne]
  constructor
  · exact popKey_nodup h.tableNodup rid
  · exact h.callersKeysNodup
  · rw [keysA_mapVal]; exact h.futuresKeysNodup
  · intro rid2 hsome
    rw [lookupA_mapVal_isSome] at hsome
    exact h.futSubCallers rid2 hsome
  · intro rid2 hm
    rw [lookupA_mapVal_isSome]
    exact h.tableSubFutures rid2 (mem_popKey.mp hm).1
  · intro rid2 d hf
    by_cases he : rid2 = rid
    · subst he; exact popKey_not_mem s.table rid2
    · rw [hlook rid2 he] at hf
      intro hm
      exact h.resolvedNotInTable rid2 d hf (mem_popKey.mp hm).1
  · intro rid2 hf
    by_cases he : rid2 = rid
    · subst he; exact popKey_not_mem s.table rid2
    · rw [hlook rid2 he] at hf
      intro hm
      exact h.discCancelledNotInTable rid2 hf (mem_popKey.mp hm).1
  · intro rid2 d hf
    by_cases he : rid2 = rid
    · subst he
      rw [lookupA_mapVal] at hf
      cases hl : lookupA s.futures rid2 with
      | none => rw [hl] at hf; exact Option.noConfusion hf
      | some st =>
        rw [hl] at hf
        simp only [Option.map_some', if_pos rfl, Option.some.injEq] at hf
        cases st with
        | pending =>
          obtain rfl : f = d := by
            simpa [resolveFuture] using hf
          exact hrid
        | resolved d0 =>
          have hd : d0 = d := by
            simpa [resolveFuture] using hf
          rw [← hd]
          exact h.resolvedMatches rid2 d0 hl
        | timerCancelled => simp [resolveFuture] at hf
        | disconnectCancelled => simp [resolveFuture] at hf
    · rw [hlook rid2 he] at hf
      exact h.resolvedMatches rid2 d hf
  · exact h.logNodup
  · exact h.logFinished
  · exact h.finishedLogged
  · intro rid2 o2 hf hm
    exact h.finishedNotInTable rid2 o2 hf (mem_popKey.mp hm).1
  · exact h.responseMatches

theorem handleCommandMessage_eq_of_none {s : CmdState} {f : JValue}
    (hrid : frameRequestId f = none) : handleCommandMessage s f = s := by
  simp [handleCommandMessage, hrid]

theorem handleCommandMessage_eq_of_unknown {s : CmdState} {f : JValue}
    {rid : String} (hrid : frameRequestId f = some rid)
    (hmem : rid ∉ s.table) : handleCommandMessage s f = s := by
  simp [handleCommandMessage, hrid, hmem]

theorem handleCommandMessage_eq_of_known {s : CmdState} {f : JValue}
    {rid : String} (hrid : frameRequestId f = some rid)
    (hmem : rid ∈ s.table) :
    handleCommandMessage s f = { s with
      table := popKey s.table rid,
      futures := mapVal (fun k st => if k = rid then resolveFuture st f else st)
        s.futures } := by
  simp [handleCommandMessage, hrid, hmem]

theorem inv_handleCommandMessage {s : CmdState} (h : Inv s) (f : JValue) :
    Inv (handleCommandMessage s f) := by
  cases hrid : frameRequestId f with
  | none => rw [handleCommandMessage_eq_of_none hrid]; exact h
  | some rid =>
    by_cases hmem : rid ∈ s.table
    · rw [handleCommandMessage_eq_of_known hrid hmem]
      exact inv_resolveFrame h hrid hmem
    · rw [handleCommandMessage_eq_of_unknown hrid hmem]
      exact h

theorem lookupA_setA_isSome {α : Type} (m : List (String × α))
    (k : String) (v : α) (k2 : String) :
    (lookupA (setA m k v) k2).isSome = (lookupA m k2).isSome := by
  rw [setA]; exact lookupA_mapVal_isSome _ _ _

theorem inv_timeoutFire {s : CmdState} {rid : String} (h : Inv s)
    (hfut : lookupA s.futures rid = some FState.pending) :
    Inv { s with futures := setA s.futures rid FState.timerCancelled } := by
  have hself : lookupA (setA s.futures rid FState.timerCancelled) rid
      = some FState.timerCancelled := by
    rw [lookupA_setA_self, hfut]; rfl
  constructor
  · exact h.tableNodup
  · exact h.callersKeysNodup
  · rw [keysA_setA]; exact h.futuresKeysNodup
  · intro rid2 hsome
    rw [lookupA_setA_isSome] at hsome
    exact h.futSubCallers rid2 hsome
  · intro rid2 hm
    rw [lookupA_setA_isSome]
    exact h.tableSubFutures rid2 hm
  · intro rid2 d hf
    by_cases he : rid2 = rid
    · subst he; rw [hself] at hf; exact absurd hf (by simp)
    · rw [lookupA_setA_ne _ _ _ _ he] at hf
      exact h.resolvedNotInTable rid2 d hf
  · intro rid2 hf
    by_cases he : rid2 = rid
    · subst he; rw [hself] at hf; exact absurd hf (by simp)
    · rw [lookupA_setA_ne _ _ _ _ he] at hf
      exact h.discCancelledNotInTable rid2 hf
  · intro rid2 d hf
    by_cases he : rid2 = rid
    · subst he; rw [hself] at hf; exact absurd hf (by simp)
    · rw [lookupA_setA_ne _ _ _ _ he] at hf
      exact h.resolvedMatches rid2 d hf
  · exact h.logNodup
  · exact h.logFinished
  · exact h.finishedLogged
  · exact h.finishedNotInTable
  · exact h.responseMatches

theorem inv_timeoutRaise {s : CmdState} {rid : String} (h : Inv s)
    (hc : lookupA s.callers rid = some Caller.waiting) :
    Inv { s with
      table := popKey s.table rid,
      callers := setA s.callers rid (Caller.finished Outcome.timedOut),
      log := s.log ++ [(rid, Outcome.timedOut)] } := by
  have hself : lookupA (setA s.callers rid
      (Caller.finished Outcome.timedOut)) rid
      = some (Caller.finished Outcome.timedOut) := by
    rw [lookupA_setA_self, hc]; rfl
  have hridlog : rid ∉ s.log.map Prod.fst := fun hm => by
    obtain ⟨o2, ho2⟩ := exists_snd_of_mem_map_fst hm
    have h2 := h.logFinished rid o2 ho2
    rw [hc] at h2
    exact Caller.noConfusion (Option.some.inj h2)
  constructor
  · exact popKey_nodup h.tableNodup rid
  · rw [keysA_setA]; exact h.callersKeysNodup
  · exact h.futuresKeysNodup
  · intro rid2 hsome
    rw [lookupA_setA_isSome]
    exact h.futSubCallers rid2 hsome
  · intro rid2 hm
    exact h.tableSubFutures rid2 (mem_popKey.mp hm).1
  · intro rid2 d hf hm
    exact h.resolvedNotInTable rid2 d hf (mem_popKey.mp hm).1
  · intro rid2 hf hm
    exact h.discCancelledNotInTable rid2 hf (mem_popKey.mp hm).1
  · exact h.resolvedMatches
  · simp only [List.map_append, List.map_cons, List.map_nil]
    rw [List.nodup_append]
    exact ⟨h.logNodup, List.nodup_singleton rid, by simpa using hridlog⟩
  · intro rid2 o2 hmem
    rcases List.mem_append.mp hmem with hold | hnew
    · have hf := h.logFinished rid2 o2 hold
      have hne : rid2 ≠ rid := by
        rintro rfl; rw [hc] at hf
        exact Caller.noConfusion (Option.some.inj hf)
      rw [lookupA_setA_ne _ _ _ _ hne]; exact hf
    · simp only [List.mem_singleton, Prod.mk.injEq] at hnew
      obtain ⟨rfl, rfl⟩ := hnew
      exact hself
  · intro rid2 o2 hf
    by_cases he : rid2 = rid
    · subst he
      rw [hself] at hf
      obtain rfl : Outcome.timedOut = o2 := by
        injection Option.some.inj hf
      exact List.mem_append_right _ (by simp)
    · rw [lookupA_setA_ne _ _ _ _ he] at hf
      exact List.mem_append_left _ (h.finishedLogged rid2 o2 hf)
  · intro rid2 o2 hf
    by_cases he : rid2 = rid
    · subst he; exact popKey_not_mem s.table rid2
    · rw [lookupA_setA_ne _ _ _ _ he] at hf
      intro hm
      exact h.finishedNotInTable rid2 o2 hf (mem_popKey.mp hm).1
  · intro rid2 d hf
    by_cases he : rid2 = rid
    · subst he; rw [hself] at hf
      exact absurd (Option.some.inj hf) (by simp)
    · rw [lookupA_setA_ne _ _ _ _ he] at hf
      exact h.responseMatches rid2 d hf

theorem inv_deliver {s : CmdState} {rid : String} {d : JValue} (h : Inv s)
    (hc : lookupA s.callers rid = some Caller.waiting)
    (hfut : lookupA s.futures rid = some (FState.resolved d)) :
    Inv { s with
      callers := setA s.callers rid (Caller.finished (Outcome.response d)),
      log := s.log ++ [(rid, Outcome.response d)] } := by
  have hself : lookupA (setA s.callers rid
      (Caller.finished (Outcome.response d))) rid
      = some (Caller.finished (Outcome.response d)) := by
    rw [lookupA_setA_self, hc]; rfl
  have hridlog : rid ∉ s.log.map Prod.fst := fun hm => by
    obtain ⟨o2, ho2⟩ := exists_snd_of_mem_map_fst hm
    have h2 := h.logFinished rid o2 ho2
    rw [hc] at h2
    exact Caller.noConfusion (Option.some.inj h2)
  constructor
  · exact h.tableNodup
  · rw [keysA_setA]; exact h.callersKeysNodup
  · exact h.futuresKeysNodup
  · intro rid2 hsome
    rw [lookupA_setA_isSome]
    exact h.futSubCallers rid2 hsome
  · exact h.tableSubFutures
  · exact h.resolvedNotInTable
  · exact h.discCancelledNotInTable
  · exact h.resolvedMatches
  · simp only [List.map_append, List.map_cons, List.map_nil]
    rw [List.nodup_append]
    exact ⟨h.logNodup, List.nodup_singleton rid, by simpa using hridlog⟩
  · intro rid2 o2 hmem
    rcases List.mem_append.mp hmem with hold | hnew
    · have hf := h.logFinished rid2 o2 hold
      have hne : rid2 ≠ rid := by
        rintro rfl; rw [hc] at hf
        exact Caller.noConfusion (Option.some.inj hf)
      rw [lookupA_setA_ne _ _ _ _ hne]; exact hf
    · simp only [List.mem_singleton, Prod.mk.injEq] at hnew
      obtain ⟨rfl, rfl⟩ := hnew
      exact hself
  · intro rid2 o2 hf
    by_cases he : rid2 = rid
    · subst he
      rw [hself] at hf
      obtain rfl : Outcome.response d = o2 := by
        injection Option.some.inj hf
      exact List.mem_append_right _ (by simp)
    · rw [lookupA_setA_ne _ _ _ _ he] at hf
      exact List.mem_append_left _ (h.finishedLogged rid2 o2 hf)
  · intro rid2 o2 hf
    by_cases he : rid2 = rid
    · subst he; exact h.resolvedNotInTable rid2 d hfut
    · rw [lookupA_setA_ne _ _ _ _ he] at hf
      exact h.finishedNotInTable rid2 o2 hf
  · intro rid2 d2 hf
    by_cases he : rid2 = rid
    · subst he
      rw [hself] at hf
      obtain rfl : d = d2 := by
        have h3 := Option.some.inj hf
        injection h3 with h4
        injection h4
      exact h.resolvedMatches rid2 d hfut
    · rw [lookupA_setA_ne _ _ _ _ he] at hf
      exact h.responseMatches rid2 d2 hf

theorem inv_cancelRaise {s : CmdState} {rid : String} (h : Inv s)
    (hc : lookupA s.callers rid = some Caller.waiting)
    (hfut : lookupA s.futures rid = some FState.disconnectCancelled) :
    Inv { s with
      callers := setA s.callers rid (Caller.finished Outcome.cancelled),
      log := s.log ++ [(rid, Outcome.cancelled)] } := by
  have hself : lookupA (setA s.callers rid
      (Caller.finished Outcome.cancelled)) rid
      = some (Caller.finished Outcome.cancelled) := by
    rw [lookupA_setA_self, hc]; rfl
  have hridlog : rid ∉ s.log.map Prod.fst := fun hm => by
    obtain ⟨o2, ho2⟩ := exists_snd_of_mem_map_fst hm
    have h2 := h.logFinished rid o2 ho2
    rw [hc] at h2
    exact Caller.noConfusion (Option.some.inj h2)
  constructor
  · exact h.tableNodup
  · rw [keysA_setA]; exact h.callersKeysNodup
  · exact h.futuresKeysNodup
  · intro rid2 hsome
    rw [lookupA_setA_isSome]
    exact h.futSubCallers rid2 hsome
  · exact h.tableSubFutures
  · exact h.resolvedNotInTable
  · exact h.discCancelledNotInTable
  · exact h.resolvedMatches
  · simp only [List.map_append, List.map_cons, List.map_nil]
    rw [List.nodup_append]
    exact ⟨h.logNodup, List.nodup_singleton rid, by simpa using hridlog⟩
  · intro rid2 o2 hmem
    rcases List.mem_append.mp hmem with hold | hnew
    · have hf := h.logFinished rid2 o2 hold
      have hne : rid2 ≠ rid := by
        rintro rfl; rw [hc] at hf
        exact Caller.noConfusion (Option.some.inj hf)
      rw [lookupA_setA_ne _ _ _ _ hne]; exact hf
    · simp only [List.mem_singleton, Prod.mk.injEq] at hnew
      obtain ⟨rfl, rfl⟩ := hnew
      exact hself
  · intro rid2 o2 hf
    by_cases he : rid2 = rid
    · subst he
      rw [hself] at hf
      obtain rfl : Outcome.cancelled = o2 := by
        injection Option.some.inj hf
      exact List.mem_append_right _ (by simp)
    · rw [lookupA_setA_ne _ _ _ _ he] at hf
      exact List.mem_append_left _ (h.finishedLogged rid2 o2 hf)
  · intro rid2 o2 hf
    by_cases he : rid2 = rid
    · subst he; exact h.discCancelledNotInTable rid2 hfut
    · rw [lookupA_setA_ne _ _ _ _ he] at hf
      exact h.finishedNotInTable rid2 o2 hf
  · intro rid2 d hf
    by_cases he : rid2 = rid
    · subst he; rw [hself] at hf
      exact absurd (Option.some.inj hf) (by simp)
    · rw [lookupA_setA_ne _ _ _ _ he] at hf
      exact h.responseMatches rid2 d hf

theorem inv_disconnect {s : CmdState} (h : Inv s) :
    Inv { s with
      running := false,
      ws := false,
      futures := cancelTableFutures s.table s.futures,
      table := [] } := by
  constructor
  · exact List.nodup_nil
  · exact h.callersKeysNodup
  · rw [cancelTableFutures, keysA_mapVal]; exact h.futuresKeysNodup
  · intro rid2 hsome
    rw [cancelTableFutures, lookupA_mapVal_isSome] at hsome
    exact h.futSubCallers rid2 hsome
  · intro rid2 hm; exact absurd hm (List.not_mem_nil rid2)
  · intro rid2 d _ hm; exact absurd hm (List.not_mem_nil rid2)
  · intro rid2 _ hm; exact absurd hm (List.not_mem_nil rid2)
  · intro rid2 d hf
    rw [cancelTableFutures, lookupA_mapVal] at hf
    cases hl : lookupA s.futures rid2 with
    | none => rw [hl] at hf; exact Option.noConfusion hf
    | some st =>
      rw [hl] at hf
      simp only [Option.map_some', Option.some.injEq] at hf
      have hst : st = FState.resolved d := by
        by_cases hm : rid2 ∈ s.table
        · rw [if_pos hm] at hf
          cases st with
          | pending => exact absurd hf (by simp [cancelFuture])
          | resolved d0 => simpa [cancelFuture] using hf
          | timerCancelled => exact absurd hf (by simp [cancelFuture])
          | disconnectCancelled => exact absurd hf (by simp [cancelFuture])
        · rw [if_neg hm] at hf; exact hf
      rw [hst] at hl
      exact h.resolvedMatches rid2 d hl
  · exact h.logNodup
  · exact h.logFinished
  · exact h.finishedLogged
  · intro rid2 o2 _ hm; exact absurd hm (List.not_mem_nil rid2)
  · exact h.responseMatches

/-- Every step of the machine preserves the invariant. -/
theorem step_inv {s s2 : CmdState} {e : Ev} (h : Inv s)
    (hstep : step s e = some s2) : Inv s2 := by
  cases e with
  | sendNoConn rid =>
    simp only [step] at hstep
    split at hstep
    · exact Option.noConfusion hstep
    · split at hstep
      · exact Option.noConfusion hstep
      · rename_i hfresh
        cases hstep
        exact inv_sendNoConn h hfresh
  | send rid =>
    simp only [step] at hstep
    split at hstep
    · exact Option.noConfusion hstep
    · split at hstep
      · exact Option.noConfusion hstep
      · rename_i hfresh
        cases hstep
        exact inv_send h hfresh
  | sendFailed rid =>
    simp only [step] at hstep
    split at hstep
    · exact Option.noConfusion hstep
    · split at hstep
      · exact Option.noConfusion hstep
      · rename_i hfresh
        cases hstep
        exact inv_sendFailed h hfresh
  | recvFrame f =>
    simp only [step] at hstep
    split at hstep
    · exact Option.noConfusion hstep
    · cases hstep
      exact inv_handleCommandMessage h f
  | timeoutFire rid =>
    simp only [step] at hstep
    split at hstep
    · rename_i hc hfut
      cases hstep
      exact inv_timeoutFire h hfut
    · exact Option.noConfusion hstep
  | timeoutRaise rid =>
    simp only [step] at hstep
    split at hstep
    · rename_i hc hfut
      cases hstep
      exact inv_timeoutRaise h hc
    · exact Option.noConfusion hstep
  | deliver rid =>
    simp only [step] at hstep
    split at hstep
    · rename_i hc hfut
      cases hstep
      exact inv_deliver h hc hfut
    · exact Option.noConfusion hstep
  | cancelRaise rid =>
    simp only [step] at hstep
    split at hstep
    · rename_i hc hfut
      cases hstep
      exact inv_cancelRaise h hc hfut
    · exact Option.noConfusion hstep
  | connLost =>
    simp only [step] at hstep
    split at hstep
    · cases hstep
      cases h
      constructor <;> assumption
    · exact Option.noConfusion hstep
  | reconnected =>
    simp only [step] at hstep
    split at hstep
    · exact Option.noConfusion hstep
    · split at hstep
      · cases hstep
        cases h
        constructor <;> assumption
      · exact Option.noConfusion hstep
  | disconnect =>
    cases hstep
    exact inv_disconnect h

/-- The invariant holds along any run. -/
theorem run_inv {s s2 : CmdState} {evs : List Ev} (h : Inv s)
    (hrun : run s evs = some s2) : Inv s2 := by
  induction evs generalizing s with
  | nil => cases hrun; exact h
  | cons e evs ih =>
    simp only [run, Option.bind_eq_some] at hrun
    obtain ⟨s3, hstep, hrest⟩ := hrun
    exact ih (step_inv h hstep) (by simpa [run] using hrest)

theorem handleCommandMessage_log (s : CmdState) (f : JValue) :
    (handleCommandMessage s f).log = s.log := by
  cases hrid : frameRequestId f with
  | none => rw [handleCommandMessage_eq_of_none hrid]
  | some rid =>
    by_cases hm : rid ∈ s.table
    · rw [handleCommandMessage_eq_of_known hrid hm]
    · rw [handleCommandMessage_eq_of_unknown hrid hm]

theorem handleCommandMessage_callers (s : CmdState) (f : JValue) :
    (handleCommandMessage s f).callers = s.callers := by
  cases hrid : frameRequestId f with
  | none => rw [handleCommandMessage_eq_of_none hrid]
  | some rid =>
    by_cases hm : rid ∈ s.table
    · rw [handleCommandMessage_eq_of_known hrid hm]
    · rw [handleCommandMessage_eq_of_unknown hrid hm]

/-- Delivered outcomes never disappear from the log. -/
theorem step_log_mono {s s2 : CmdState} {e : Ev}
    (hstep : step s e = some s2) {rid : String} {o : Outcome}
    (hmem : (rid, o) ∈ s.log) : (rid, o) ∈ s2.log := by
  cases e with
  | sendNoConn rid2 =>
    simp only [step] at hstep
    split at hstep
    · exact Option.noConfusion hstep
    · split at hstep
      · exact Option.noConfusion hstep
      · cases hstep; exact List.mem_append_left _ hmem
  | send rid2 =>
    simp only [step] at hstep
    split at hstep
    · exact Option.noConfusion hstep
    · split at hstep
      · exact Option.noConfusion hstep
      · cases hstep; exact hmem
  | sendFailed rid2 =>
    simp only [step] at hstep
    split at hstep
    · exact Option.noConfusion hstep
    · split at hstep
      · exact Option.noConfusion hstep
      · cases hstep; exact List.mem_append_left _ hmem
  | recvFrame f =>
    simp only [step] at hstep
    split at hstep
    · exact Option.noConfusion hstep
    · cases hstep; rw [handleCommandMessage_log]; exact hmem
  | timeoutFire rid2 =>
    simp only [step] at hstep
    split at hstep
    · cases hstep; exact hmem
    · exact Option.noConfusion hstep
  | timeoutRaise rid2 =>
    simp only [step] at hstep
    split at hstep
    · cases hstep; exact List.mem_append_left _ hmem
    · exact Option.noConfusion hstep
  | deliver rid2 =>
    simp only [step] at hstep
    split at hstep
    · cases hstep; exact List.mem_append_left _ hmem
    · exact Option.noConfusion hstep
  | cancelRaise rid2 =>
    simp only [step] at hstep
    split at hstep
    · cases hstep; exact List.mem_append_left _ hmem
    · exact Option.noConfusion hstep
  | connLost =>
    simp only [step] at hstep
    split at hstep
    · cases hstep; exact hmem
    · exact Option.noConfusion hstep
  | reconnected =>
    simp only [step] at hstep
    split at hstep
    · exact Option.noConfusion hstep
    · split at hstep
      · cases hstep; exact hmem
      · exact Option.noConfusion hstep
  | disconnect =>
    cases hstep; exact hmem

/-- A request id known to `send_request` stays known. -/
theorem step_callers_some {s s2 : CmdState} {e : Ev}
    (hstep : step s e = some s2) {rid : String}
    (h : (lookupA s.callers rid).isSome) :
    (lookupA s2.callers rid).isSome := by
  cases e with
  | sendNoConn rid2 =>
    simp only [step] at hstep
    split at hstep
    · exact Option.noConfusion hstep
    · split at hstep
      · exact Option.noConfusion hstep
      · cases hstep; exact isSome_lookupA_cons _ _ h
  | send rid2 =>
    simp only [step] at hstep
    split at hstep
    · exact Option.noConfusion hstep
    · split at hstep
      · exact Option.noConfusion hstep
      · cases hstep; exact isSome_lookupA_cons _ _ h
  | sendFailed rid2 =>
    simp only [step] at hstep
    split at hstep
    · exact Option.noConfusion hstep
    · split at hstep
      · exact Option.noConfusion hstep
      · cases hstep; exact isSome_lookupA_cons _ _ h
  | recvFrame f =>
    simp only [step] at hstep
    split at hstep
    · exact Option.noConfusion hstep
    · cases hstep; rw [handleCommandMessage_callers]; exact h
  | timeoutFire rid2 =>
    simp only [step] at hstep
    split at hstep
    · cases hstep; exact h
    · exact Option.noConfusion hstep
  | timeoutRaise rid2 =>
    simp only [step] at hstep
    split at hstep
    · cases hstep; rw [lookupA_setA_isSome]; exact h
    · exact Option.noConfusion hstep
  | deliver rid2 =>
    simp only [step] at hstep
    split at hstep
    · cases hstep; rw [lookupA_setA_isSome]; exact h
    · exact Option.noConfusion hstep
  | cancelRaise rid2 =>
    simp only [step] at hstep
    split at hstep
    · cases hstep; rw [lookupA_setA_isSome]; exact h
    · exact Option.noConfusion hstep
  | connLost =>
    simp only [step] at hstep
    split at hstep
    · cases hstep; exact h
    · exact Option.noConfusion hstep
  | reconnected =>
    simp only [step] at hstep
    split at hstep
    · exact Option.noConfusion hstep
    · split at hstep
      · cases hstep; exact h
      · exact Option.noConfusion hstep
  | disconnect =>
    cases hstep; exact h

/-- A finished caller stays finished, with the same outcome. -/
theorem step_finished_persists {s s2 : CmdState} {e : Ev}
    (hstep : step s e = some s2) {rid : String} {o : Outcome}
    (h : lookupA s.callers rid = some (Caller.finished o)) :
    lookupA s2.callers rid = some (Caller.finished o) := by
  cases e with
  | sendNoConn rid2 =>
    simp only [step] at hstep
    split at hstep
    · exact Option.noConfusion hstep
    · split at hstep
      · exact Option.noConfusion hstep
      · rename_i hfresh
        cases hstep
        have hne : rid2 ≠ rid := by
          rintro rfl; rw [h] at hfresh; exact Option.noConfusion hfresh
        rw [lookupA_cons_ne _ _ _ _ hne]; exact h
  | send rid2 =>
    simp only [step] at hstep
    split at hstep
    · exact Option.noConfusion hstep
    · split at hstep
      · exact Option.noConfusion hstep
      · rename_i hfresh
        cases hstep
        have hne : rid2 ≠ rid := by
          rintro rfl; rw [h] at hfresh; exact Option.noConfusion hfresh
        rw [lookupA_cons_ne _ _ _ _ hne]; exact h
  | sendFailed rid2 =>
    simp only [step] at hstep
    split at hstep
    · exact Option.noConfusion hstep
    · split at hstep
      · exact Option.noConfusion hstep
      · rename_i hfresh
        cases hstep
        have hne : rid2 ≠ rid := by
          rintro rfl; rw [h] at hfresh; exact Option.noConfusion hfresh
        rw [lookupA_cons_ne _ _ _ _ hne]; exact h
  | recvFrame f =>
    simp only [step] at hstep
    split at hstep
    · exact Option.noConfusion hstep
    · cases hstep; rw [handleCommandMessage_callers]; exact h
  | timeoutFire rid2 =>
    simp only [step] at hstep
    split at hstep
    · cases hstep; exact h
    · exact Option.noConfusion hstep
  | timeoutRaise rid2 =>
    simp only [step] at hstep
    split at hstep
    · rename_i hc hfut
      cases hstep
      have hne : rid ≠ rid2 := by
        rintro rfl; rw [h] at hc
        exact Caller.noConfusion (Option.some.inj hc)
      rw [lookupA_setA_ne _ _ _ _ hne]; exact h
    · exact Option.noConfusion hstep
  | deliver rid2 =>
    simp only [step] at hstep
    split at hstep
    · rename_i hc hfut
      cases hstep
      have hne : rid ≠ rid2 := by
        rintro rfl; rw [h] at hc
        exact Caller.noConfusion (Option.some.inj hc)
      rw [lookupA_setA_ne _ _ _ _ hne]; exact h
    · exact Option.noConfusion hstep
  | cancelRaise rid2 =>
    simp only [step] at hstep
    split at hstep
    · rename_i hc hfut
      cases hstep
      have hne : rid ≠ rid2 := by
        rintro rfl; rw [h] at hc
        exact Caller.noConfusion (Option.some.inj hc)
      rw [lookupA_setA_ne _ _ _ _ hne]; exact h
    · exact Option.noConfusion hstep
  | connLost =>
    simp only [step] at hstep
    split at hstep
    · cases hstep; exact h
    · exact Option.noConfusion hstep
  | reconnected =>
    simp only [step] at hstep
    split at hstep
    · exact Option.noConfusion hstep
    · split at hstep
      · cases hstep; exact h
      · exact Option.noConfusion hstep
  | disconnect =>
    cases hstep; exact h

/-- The outcomes the spec names for an issued request: a matching response,
a timeout, or cancellation (which in this program only `disconnect` causes). -/
def mainOutcome (o : Outcome) : Prop :=
  (∃ d, o = Outcome.response d) ∨ o = Outcome.timedOut ∨ o = Outcome.cancelled

/-- Once a request id is known to a caller, any outcome later logged for it
is one of the three main outcomes (the immediate-failure outcomes
`connError`/`sendError` are only ever logged for a fresh id). -/
theorem step_new_log_main {s s2 : CmdState} {e : Ev}
    (hstep : step s e = some s2) {rid : String} {o : Outcome}
    (hsome : (lookupA s.callers rid).isSome) (hmem : (rid, o) ∈ s2.log) :
    (rid, o) ∈ s.log ∨ mainOutcome o := by
  cases e with
  | sendNoConn rid2 =>
    simp only [step] at hstep
    split at hstep
    · exact Option.noConfusion hstep
    · split at hstep
      · exact Option.noConfusion hstep
      · rename_i hfresh
        cases hstep
        rcases List.mem_append.mp hmem with hold | hnew
        · exact Or.inl hold
        · simp only [List.mem_singleton, Prod.mk.injEq] at hnew
          obtain ⟨rfl, rfl⟩ := hnew
          rw [hfresh] at hsome; simp at hsome
  | send rid2 =>
    simp only [step] at hstep
    split at hstep
    · exact Option.noConfusion hstep
    · split at hstep
      · exact Option.noConfusion hstep
      · cases hstep; exact Or.inl hmem
  | sendFailed rid2 =>
    simp only [step] at hstep
    split at hstep
    · exact Option.noConfusion hstep
    · split at hstep
      · exact Option.noConfusion hstep
      · rename_i hfresh
        cases hstep
        rcases List.mem_append.mp hmem with hold | hnew
        · exact Or.inl hold
        · simp only [List.mem_singleton, Prod.mk.injEq] at hnew
          obtain ⟨rfl, rfl⟩ := hnew
          rw [hfresh] at hsome; simp at hsome
  | recvFrame f =>
    simp only [step] at hstep
    split at hstep
    · exact Option.noConfusion hstep
    · cases hstep
      rw [handleCommandMessage_log] at hmem
      exact Or.inl hmem
  | timeoutFire rid2 =>
    simp only [step] at hstep
    split at hstep
    · cases hstep; exact Or.inl hmem
    · exact Option.noConfusion hstep
  | timeoutRaise rid2 =>
    simp only [step] at hstep
    split at hstep
    · cases hstep
      rcases List.mem_append.mp hmem with hold | hnew
      · exact Or.inl hold
      · simp only [List.mem_singleton, Prod.mk.injEq] at hnew
        exact Or.inr (Or.inr (Or.inl hnew.2))
    · exact Option.noConfusion hstep
  | deliver rid2 =>
    simp only [step] at hstep
    split at hstep
    · cases hstep
      rcases List.mem_append.mp hmem with hold | hnew
      · exact Or.inl hold
      · simp only [List.mem_singleton, Prod.mk.injEq] at hnew
        exact Or.inr (Or.inl ⟨_, hnew.2⟩)
    · exact Option.noConfusion hstep
  | cancelRaise rid2 =>
    simp only [step] at hstep
    split at hstep
    · cases hstep
      rcases List.mem_append.mp hmem with hold | hnew
      · exact Or.inl hold
      · simp only [List.mem_singleton, Prod.mk.injEq] at hnew
        exact Or.inr (Or.inr (Or.inr hnew.2))
    · exact Option.noConfusion hstep
  | connLost =>
    simp only [step] at hstep
    split at hstep
    · cases hstep; exact Or.inl hmem
    · exact Option.noConfusion hstep
  | reconnected =>
    simp only [step] at hstep
    split at hstep
    · exact Option.noConfusion hstep
    · split at hstep
      · cases hstep; exact Or.inl hmem
      · exact Option.noConfusion hstep
  | disconnect =>
    cases hstep; exact Or.inl hmem

theorem run_callers_some {s s2 : CmdState} {evs : List Ev}
    (hrun : run s evs = some s2) {rid : String}
    (h : (lookupA s.callers rid).isSome) :
    (lookupA s2.callers rid).isSome := by
  induction evs generalizing s with
  | nil => cases hrun; exact h
  | cons e evs ih =>
    simp only [run, Option.bind_eq_some] at hrun
    obtain ⟨s3, hstep, hrest⟩ := hrun
    exact ih (by simpa [run] using hrest) (step_callers_some hstep h)

theorem run_finished_persists {s s2 : CmdState} {evs : List Ev}
    (hrun : run s evs = some s2) {rid : String} {o : Outcome}
    (h : lookupA s.callers rid = some (Caller.finished o)) :
    lookupA s2.callers rid = some (Caller.finished o) := by
  induction evs generalizing s with
  | nil => cases hrun; exact h
  | cons e evs ih =>
    simp only [run, Option.bind_eq_some] at hrun
    obtain ⟨s3, hstep, hrest⟩ := hrun
    exact ih (by simpa [run] using hrest) (step_finished_persists hstep h)

theorem run_new_log_main {s s2 : CmdState} {evs : List Ev}
    (hrun : run s evs = some s2) {rid : String} {o : Outcome}
    (hsome : (lookupA s.callers rid).isSome) (hmem : (rid, o) ∈ s2.log) :
    (rid, o) ∈ s.log ∨ mainOutcome o := by
  induction evs generalizing s with
  | nil => cases hrun; exact Or.inl hmem
  | cons e evs ih =>
    simp only [run, Option.bind_eq_some] at hrun
    obtain ⟨s3, hstep, hrest⟩ := hrun
    rcases ih (by simpa [run] using hrest) (step_callers_some hstep hsome)
        with h3 | h3
    · exact step_new_log_main hstep hsome h3
    · exact Or.inr h3

theorem run_append {s s2 : CmdState} (evs1 evs2 : List Ev) :
    run s (evs1 ++ evs2) = some s2 ↔
    ∃ sm, run s evs1 = some sm ∧ run sm evs2 = some s2 := by
  induction evs1 generalizing s with
  | nil =>
    constructor
    · intro h; exact ⟨s, rfl, h⟩
    · rintro ⟨sm, hm, h2⟩
      obtain rfl := Option.some.inj hm
      exact h2
  | cons e evs1 ih =>
    constructor
    · intro h
      simp only [List.cons_append, run, Option.bind_eq_some] at h
      obtain ⟨s3, hstep, hrest⟩ := h
      obtain ⟨sm, h1, h2⟩ := ih.mp hrest
      refine ⟨sm, ?_, h2⟩
      simp only [run, Option.bind_eq_some]
      exact ⟨s3, hstep, h1⟩
    · rintro ⟨sm, h1, h2⟩
      simp only [run, Option.bind_eq_some] at h1
      obtain ⟨s3, hstep, h1⟩ := h1
      simp only [List.cons_append, run, Option.bind_eq_some]
      exact ⟨s3, hstep, ih.mpr ⟨sm, h1, h2⟩⟩

theorem step_send_shape {s s2 : CmdState} {rid : String}
    (hstep : step s (Ev.send rid) = some s2) :
    lookupA s.callers rid = none ∧
    s2 = { s with futures := (rid, FState.pending) :: s.futures,
                  table := rid :: s.table,
                  callers := (rid, Caller.waiting) :: s.callers } := by
  simp only [step] at hstep
  split at hstep
  · exact Option.noConfusion hstep
  · split at hstep
    · exact Option.noConfusion hstep
    · rename_i hfresh
      cases hstep
      exact ⟨hfresh, rfl⟩

/-!
## The client facade (`ApiClient` lifecycle, client.py lines 17-57)

`disconnect` touches the two websockets, the two background tasks, and the
correlation table. The background tasks are modelled by their observable
status: `task.cancel()` on a live task only *requests* cancellation — the
task actually finishes the next time the scheduler runs it, which is after
`disconnect` has already returned (client.py lines 48-51 contain no `await`
of either task; e.g. a task sleeping in the 5-second reconnect delay of
line 79 is still alive when `disconnect` returns). -/
inductive TaskStatus where
  | noTask
  | live
  | cancelRequested
  | finished
deriving DecidableEq

/-- `task.cancel()` (client.py lines 48-51): requests cancellation of a live
task; a no-op on `None` and on an already finished or cancelled task. -/
def cancelTask : TaskStatus → TaskStatus
  | TaskStatus.live => TaskStatus.cancelRequested
  | t => t

/-- Observable state of one `ApiClient` (client.py lines 17-31). -/
structure Facade where
  commandWs : Bool
  eventWs : Bool
  running : Bool
  table : List String
  futures : List (String × FState)
  eventQueue : List JValue
  commandTask : TaskStatus
  eventTask : TaskStatus

/-- `ApiClient.__init__` (client.py lines 17-31): no connection, no tasks,
empty table and queue. -/
def Facade.fresh : Facade :=
  { commandWs := false, eventWs := false, running := false, table := [],
    futures := [], eventQueue := [], commandTask := TaskStatus.noTask,
    eventTask := TaskStatus.noTask }

/-- `connect()` (client.py lines 33-37): sets `_running` and starts both
maintenance loops as background tasks. -/
def Facade.connect (c : Facade) : Facade :=
  { c with running := true, commandTask := TaskStatus.live,
           eventTask := TaskStatus.live }

/-- `disconnect()` (client.py lines 39-57): clear `_running`, close both
sockets if open, request cancellation of both tasks, cancel every pending
future still in the table, clear the table.  There is no `await` between
the future-cancelling loop (lines 54-56) and `clear()` (line 57), so the
whole mutation is one atomic segment. -/
def Facade.disconnect (c : Facade) : Facade :=
  { c with running := false, commandWs := false, eventWs := false,
           commandTask := cancelTask c.commandTask,
           eventTask := cancelTask c.eventTask,
           futures := cancelTableFutures c.table c.futures,
           table := [] }

theorem cancelTask_idem (t : TaskStatus) :
    cancelTask (cancelTask t) = cancelTask t := by
  cases t <;> rfl

theorem cancelTableFutures_nil (fs : List (String × FState)) :
    cancelTableFutures [] fs = fs := by
  induction fs with
  | nil => rfl
  | cons p fs ih =>
    simp only [cancelTableFutures, mapVal, List.map_cons] at ih ⊢
    rw [ih]
    simp

theorem processEvents_append (q : List JValue) (msgs : List JValue) :
    processEvents q (msgs.map some) = q ++ msgs := by
  induction msgs generalizing q with
  | nil => simp [processEvents]
  | cons m msgs ih =>
    have h1 : processEvents q ((m :: msgs).map some)
        = processEvents (q ++ [m]) (msgs.map some) := rfl
    rw [h1, ih]
    simp

theorem dequeueUpTo_length (q : List JValue) :
    dequeueUpTo q.length q = q := by
  induction q with
  | nil => rfl
  | cons x xs ih => simp only [List.length_cons, dequeueUpTo, getEvent, ih]

/-!
## The claims
-/

/-- Claim C7: `get_events(timeout)` returns `None` (not an error) when no
event is queued or arrives within the timeout, and otherwise dequeues queued
events strictly in their arrival order (FIFO): the receive loop appends each
well-formed inbound event frame to the back of the queue, `get_events`
takes from the front, and draining a queue filled from a burst of frames
returns exactly those frames in arrival order. -/
theorem getEvents_none_and_fifo :
    getEvent [] = (none, [])
    ∧ (∀ q d, handleEventMessage q (some d) = q ++ [d])
    ∧ (∀ x xs, getEvent (x :: xs) = (some x, xs))
    ∧ (∀ q msgs, processEvents q (msgs.map some) = q ++ msgs)
    ∧ (∀ msgs : List JValue,
        dequeueUpTo msgs.length (processEvents [] (msgs.map some)) = msgs) := by
  refine ⟨rfl, fun q d => rfl, fun x xs => rfl, processEvents_append, ?_⟩
  intro msgs
  rw [processEvents_append, List.nil_append]
  exact dequeueUpTo_length msgs

/-- Claim C8: `set_speed(n)` sends a payload whose `speed` field is `n`
clamped into `[0, 3]` (so `-1` becomes `0` and `9` becomes `3`), and
`set_priority(cell, p)` sends a payload whose `priority` field is `p`
clamped into `[1, 9]` (so `0` becomes `1` and `20` becomes `9`); the clamp
is applied while building the payload, before anything is sent. -/
theorem setSpeed_setPriority_clamp :
    (∀ n : ℤ, clampSpeed n = if n < 0 then 0 else if 3 < n then 3 else n)
    ∧ (∀ p : ℤ, clampPriority p = if p < 1 then 1 else if 9 < p then 9 else p)
    ∧ clampSpeed (-1) = 0 ∧ clampSpeed 9 = 3
    ∧ clampPriority 0 = 1 ∧ clampPriority 20 = 9
    ∧ (∀ n : ℤ, getD (setSpeedPayload n) "speed" (JValue.num 0)
        = some (JValue.num (clampSpeed n)))
    ∧ (∀ x y p : ℤ, getD (setPriorityPayload x y p) "priority" (JValue.num 0)
        = some (JValue.num (clampPriority p))) := by
  refine ⟨?_, ?_, by decide, by decide, by decide, by decide, ?_, ?_⟩
  · intro n
    simp only [clampSpeed]
    split_ifs <;> omega
  · intro p
    simp only [clampPriority]
    split_ifs <;> omega
  · intro n; rfl
  · intro x y p; rfl

/-- Claim C9: `get_state()` decodes the response payload into a colony-state
snapshot whose duplicant and building lists have exactly the lengths of the
corresponding arrays of the payload: whenever `ColonyState.from_dict`
succeeds on a payload storing arrays under `duplicants` and `buildings`,
the decoded lists are elementwise decodes and in particular have the same
lengths. -/
theorem getState_decode_counts (p : JValue) (ds bs : List JValue)
    (st : ColonyState)
    (hd : getD p "duplicants" (JValue.arr []) = some (JValue.arr ds))
    (hb : getD p "buildings" (JValue.arr []) = some (JValue.arr bs))
    (hdec : ColonyState.fromDict p = some st) :
    st.duplicants.length = ds.length ∧ st.buildings.length = bs.length := by
  simp only [ColonyState.fromDict, Option.bind_eq_some] at hdec
  obtain ⟨tsv, htsv, ts, hts, wv, hwv, w, hw, dv, hdv, dups, hdups, bv, hbv,
    blds, hblds, rv, hrv, ress, hress, cv, hcv, chs, hchs, ev2, hev, cls,
    hcls, al, hal, heq⟩ := hdec
  obtain rfl := Option.some.inj heq
  rw [hd] at hdv
  obtain rfl := Option.some.inj hdv
  rw [hb] at hbv
  obtain rfl := Option.some.inj hbv
  simp only [listDecode] at hdups hblds
  exact ⟨decodeList_length _ _ _ hdups, decodeList_length _ _ _ hblds⟩

/-- A mock `State.Get` response payload with 3 duplicant objects and 2
building objects. -/
def mockStatePayload : JValue :=
  JValue.obj [("duplicants", JValue.arr [JValue.obj [], JValue.obj [],
                JValue.obj []]),
              ("buildings", JValue.arr [JValue.obj [], JValue.obj []])]

theorem getState_decode_counts_w :
    (ColonyState.fromDict mockStatePayload).map
      (fun st => (st.duplicants.length, st.buildings.length))
      = some (3, 2) := by
  obtain ⟨st, hst⟩ : ∃ st, ColonyState.fromDict mockStatePayload = some st :=
    ⟨_, rfl⟩
  have h := getState_decode_counts mockStatePayload _ _ st rfl rfl hst
  rw [hst, Option.map_some', h.1, h.2]
  rfl

/-- Claim C4: if `command_ws` is unset when `send_request` is called, the
call raises `ConnectionError` immediately: no entry is inserted into
`pending_requests`, the sending events are not even enabled while
disconnected, and — since the failed call's id is recorded as finished —
no entry for it can ever appear in the table later either. -/
theorem sendRequest_notConnected (evs : List Ev) (s : CmdState)
    (rid : String) (hrun : run startState evs = some s)
    (hws : s.ws = false) (hfresh : lookupA s.callers rid = none) :
    step s (Ev.sendNoConn rid)
      = some { s with
          callers := (rid, Caller.finished Outcome.connError) :: s.callers,
          log := s.log ++ [(rid, Outcome.connError)] }
    ∧ step s (Ev.send rid) = none
    ∧ step s (Ev.sendFailed rid) = none
    ∧ ∀ evs2 s3, run { s with
          callers := (rid, Caller.finished Outcome.connError) :: s.callers,
          log := s.log ++ [(rid, Outcome.connError)] } evs2 = some s3 →
        rid ∉ s3.table := by
  have hinv := run_inv Inv.start hrun
  refine ⟨by simp [step, hws, hfresh], by simp [step, hws],
    by simp [step, hws], ?_⟩
  intro evs2 s3 hrun2
  have hinv2 := inv_sendNoConn hinv hfresh
  have hfin : lookupA ((rid, Caller.finished Outcome.connError) :: s.callers)
      rid = some (Caller.finished Outcome.connError) :=
    lookupA_cons_self _ _ _
  have hfin3 := run_finished_persists hrun2 hfin
  exact (run_inv hinv2 hrun2).finishedNotInTable rid _ hfin3

theorem sendRequest_notConnected_w :
    step startState (Ev.sendNoConn "r1")
      = some { startState with
          callers := [("r1", Caller.finished Outcome.connError)],
          log := [("r1", Outcome.connError)] }
    ∧ step startState (Ev.send "r1") = none
    ∧ startState.ws = false := by
  have h := sendRequest_notConnected [] startState "r1" rfl rfl rfl
  exact ⟨h.1, h.2.1, rfl⟩

/-- Claim C5: an inbound command-channel frame whose `requestId` is absent,
not a usable id, or not a key of `pending_requests` is logged and dropped:
the receive-loop step leaves the whole client state exactly unchanged — the
table is untouched, no caller sees an error, and the connection stays up. -/
theorem unknownFrame_dropped (s s2 : CmdState) (f : JValue)
    (hstep : step s (Ev.recvFrame f) = some s2)
    (hunk : ∀ rid, frameRequestId f = some rid → rid ∉ s.table) :
    s2 = s := by
  simp only [step] at hstep
  split at hstep
  · exact Option.noConfusion hstep
  · cases hstep
    cases hrid : frameRequestId f with
    | none => exact handleCommandMessage_eq_of_none hrid
    | some rid => exact handleCommandMessage_eq_of_unknown hrid (hunk rid hrid)

theorem unknownFrame_dropped_w :
    step { startState with ws := true }
      (Ev.recvFrame (JValue.obj [("requestId", JValue.str "ghost")]))
    = some { startState with ws := true } := by
  have hs2 : step { startState with ws := true }
      (Ev.recvFrame (JValue.obj [("requestId", JValue.str "ghost")]))
      = some (handleCommandMessage { startState with ws := true }
          (JValue.obj [("requestId", JValue.str "ghost")])) := rfl
  have h := unknownFrame_dropped { startState with ws := true }
      (handleCommandMessage { startState with ws := true }
        (JValue.obj [("requestId", JValue.str "ghost")]))
      (JValue.obj [("requestId", JValue.str "ghost")])
      hs2 (by intro rid hrid hmem; simp [startState] at hmem)
  rw [hs2, h]

/-- Claim C10: whenever a `send_request` call ends in an exception —
`ConnectionError` before sending, a failed `ws.send`, the 30-second
timeout, or cancellation (which in this program only `disconnect()`
causes, and `disconnect` clears the whole table in the same atomic
segment) — the correlation table afterwards holds no entry for that
call's request id. -/
theorem sendRequest_error_entry_removed (evs : List Ev) (s : CmdState)
    (rid : String) (o : Outcome)
    (hrun : run startState evs = some s)
    (hmem : (rid, o) ∈ s.log)
    (_herr : o = Outcome.connError ∨ o = Outcome.sendError ∨
      o = Outcome.timedOut ∨ o = Outcome.cancelled) :
    rid ∉ s.table := by
  have hinv := run_inv Inv.start hrun
  exact hinv.finishedNotInTable rid o (hinv.logFinished rid o hmem)

theorem sendRequest_error_entry_removed_w :
    run startState [Ev.sendNoConn "r1"]
      = some { startState with
          callers := [("r1", Caller.finished Outcome.connError)],
          log := [("r1", Outcome.connError)] }
    ∧ "r1" ∉ ({ startState with
          callers := [("r1", Caller.finished Outcome.connError)],
          log := [("r1", Outcome.connError)] } : CmdState).table := by
  refine ⟨rfl, ?_⟩
  exact sendRequest_error_entry_removed [Ev.sendNoConn "r1"] _ "r1"
    Outcome.connError rfl (List.mem_singleton.mpr rfl) (Or.inl rfl)

/-- Claim C3 counterexample: `send_request` does not accept and does not
obey a caller-supplied timeout.  For a caller-requested timeout of 5
seconds and a response arriving after 10 seconds, the spec's wait
(`specWaitResolves`) says the call has already failed with TimedOut, while
the code's wait (`waitResolves`, client.py line 164 with its constant
`timeout=30.0` and no timeout parameter on line 134) still resolves it. -/
theorem sendRequest_fixed_timeout_cex :
    waitResolves 10 = true ∧ specWaitResolves 5 10 = false
    ∧ waitResolves 10 ≠ specWaitResolves 5 10 := by
  refine ⟨by decide, by decide, by decide⟩

/-- Claim C3 amended: `send_request` takes no per-request timeout; every
call waits up to the fixed 30-second `requestTimeout`.  If no matching
response arrives in time, the call fails with `TimeoutError`
(`Outcome.timedOut`), and the request's entry has been removed from the
correlation table by the time the error is raised. -/
theorem sendRequest_timeout_thirty (evs : List Ev) (s s2 : CmdState)
    (rid : String)
    (_hrun : run startState evs = some s)
    (hstep : step s (Ev.timeoutRaise rid) = some s2) :
    requestTimeout = 30
    ∧ (∀ a : ℚ, waitResolves a = decide (a ≤ 30))
    ∧ rid ∉ s2.table
    ∧ lookupA s2.callers rid = some (Caller.finished Outcome.timedOut)
    ∧ (rid, Outcome.timedOut) ∈ s2.log := by
  refine ⟨rfl, fun a => rfl, ?_, ?_, ?_⟩ <;>
  · simp only [step] at hstep
    split at hstep
    · rename_i hc hfut
      cases hstep
      first
      | exact popKey_not_mem s.table rid
      | (rw [lookupA_setA_self, hc]; rfl)
      | exact List.mem_append_right _ (List.mem_singleton.mpr rfl)
    · exact Option.noConfusion hstep

/-- The state after `[reconnected, send r1, timeoutFire r1]`: connected,
one outstanding request whose future the `wait_for` timer has cancelled. -/
def c3Mid : CmdState :=
  { ws := true, running := true, table := ["r1"],
    futures := [("r1", FState.timerCancelled)],
    callers := [("r1", Caller.waiting)], log := [] }

/-- The state after the `TimeoutError` surfaces. -/
def c3End : CmdState :=
  { ws := true, running := true, table := [],
    futures := [("r1", FState.timerCancelled)],
    callers := [("r1", Caller.finished Outcome.timedOut)],
    log := [("r1", Outcome.timedOut)] }

theorem sendRequest_timeout_thirty_w :
    run startState [Ev.reconnected, Ev.send "r1", Ev.timeoutFire "r1"]
      = some c3Mid
    ∧ step c3Mid (Ev.timeoutRaise "r1") = some c3End
    ∧ requestTimeout = 30
    ∧ "r1" ∉ c3End.table
    ∧ ("r1", Outcome.timedOut) ∈ c3End.log := by
  have h := sendRequest_timeout_thirty
    [Ev.reconnected, Ev.send "r1", Ev.timeoutFire "r1"] c3Mid c3End "r1"
    rfl rfl
  exact ⟨rfl, rfl, h.1, h.2.2.1, h.2.2.2.2⟩

/-- The connected state with one outstanding request, before the
connection drops. -/
def c2Up : CmdState :=
  { ws := true, running := true, table := ["r1"],
    futures := [("r1", FState.pending)],
    callers := [("r1", Caller.waiting)], log := [] }

/-- Claim C2 counterexample: losing the command connection while request
`r1` is outstanding and completing a full reconnect cycle
(`connLost` then `reconnected`) leaves `r1` still in the correlation
table, its future still pending, its caller still waiting, and no outcome
delivered — the request is *not* resolved as cancelled within one
reconnect cycle (it is not resolved at all; only the 30-second timeout,
a late response, or `disconnect()` resolves it). -/
theorem connLoss_not_cancelled_cex :
    run startState [Ev.reconnected, Ev.send "r1", Ev.connLost,
      Ev.reconnected] = some c2Up
    ∧ c2Up.table = ["r1"]
    ∧ lookupA c2Up.futures "r1" = some FState.pending
    ∧ lookupA c2Up.callers "r1" = some Caller.waiting
    ∧ c2Up.log = [] :=
  ⟨rfl, rfl, rfl, rfl, rfl⟩

/-- Claim C2 amended: loss of the command connection does not touch the
correlation table, the pending futures, the callers, or the delivered
outcomes — in-flight requests are left pending, not cancelled.  Such a
request is still resolvable afterwards: while its caller waits on its
pending future, the fixed 30-second timeout path is enabled and delivers
`Outcome.timedOut` (so transport faults reach waiting callers only as the
eventual timeout, never as a cancellation — only `disconnect()` cancels). -/
theorem connLost_preserves_requests (s s2 : CmdState)
    (hstep : step s Ev.connLost = some s2) :
    s2.ws = false ∧ s2.table = s.table ∧ s2.futures = s.futures
    ∧ s2.callers = s.callers ∧ s2.log = s.log
    ∧ ∀ rid, lookupA s2.callers rid = some Caller.waiting →
        lookupA s2.futures rid = some FState.pending →
        ∃ s3 s4, step s2 (Ev.timeoutFire rid) = some s3
          ∧ step s3 (Ev.timeoutRaise rid) = some s4
          ∧ (rid, Outcome.timedOut) ∈ s4.log := by
  simp only [step] at hstep
  split at hstep
  · cases hstep
    refine ⟨rfl, rfl, rfl, rfl, rfl, ?_⟩
    intro rid hc hp
    simp only at hc hp
    have h1 : step { s with ws := false } (Ev.timeoutFire rid)
        = some { s with
            ws := false,
            futures := setA s.futures rid FState.timerCancelled } := by
      simp only [step, hc, hp]
    have hset : lookupA (setA s.futures rid FState.timerCancelled) rid
        = some FState.timerCancelled := by
      rw [lookupA_setA_self, hp]; rfl
    have h2 : step { s with
          ws := false,
          futures := setA s.futures rid FState.timerCancelled }
        (Ev.timeoutRaise rid)
        = some { s with
            ws := false,
            futures := setA s.futures rid FState.timerCancelled,
            table := popKey s.table rid,
            callers := setA s.callers rid (Caller.finished Outcome.timedOut),
            log := s.log ++ [(rid, Outcome.timedOut)] } := by
      simp only [step, hc, hset]
    exact ⟨_, _, h1, h2,
      List.mem_append_right _ (List.mem_singleton.mpr rfl)⟩
  · exact Option.noConfusion hstep

/-- `c2Up` after the connection loss. -/
def c2Lost : CmdState :=
  { ws := false, running := true, table := ["r1"],
    futures := [("r1", FState.pending)],
    callers := [("r1", Caller.waiting)], log := [] }

/-- `c2Lost` after the 30-second timer fires. -/
def c2Fired : CmdState :=
  { ws := false, running := true, table := ["r1"],
    futures := [("r1", FState.timerCancelled)],
    callers := [("r1", Caller.waiting)], log := [] }

/-- `c2Fired` after the `TimeoutError` surfaces. -/
def c2TimedOut : CmdState :=
  { ws := false, running := true, table := [],
    futures := [("r1", FState.timerCancelled)],
    callers := [("r1", Caller.finished Outcome.timedOut)],
    log := [("r1", Outcome.timedOut)] }

theorem connLost_preserves_requests_w :
    step c2Up Ev.connLost = some c2Lost
    ∧ c2Lost.table = c2Up.table
    ∧ c2Lost.futures = c2Up.futures
    ∧ step c2Lost (Ev.timeoutFire "r1") = some c2Fired
    ∧ step c2Fired (Ev.timeoutRaise "r1") = some c2TimedOut
    ∧ ("r1", Outcome.timedOut) ∈ c2TimedOut.log := by
  have h := connLost_preserves_requests c2Up c2Lost rfl
  exact ⟨rfl, h.2.1, h.2.2.1, rfl, rfl, List.mem_singleton.mpr rfl⟩

/-- Claim C6 counterexample: `disconnect()` does not drain (await the
completion of) the background channel tasks before returning.  It only
calls `task.cancel()` (client.py lines 48-51) and never awaits either
task, so after a `connect()`/`disconnect()` pair both tasks are merely
cancel-requested — neither has finished — when `disconnect` returns
(e.g. a task sleeping in the 5-second reconnect delay of line 79 is still
alive at that point). -/
theorem disconnect_no_drain_cex :
    (Facade.fresh.connect.disconnect).commandTask
      = TaskStatus.cancelRequested
    ∧ (Facade.fresh.connect.disconnect).eventTask
      = TaskStatus.cancelRequested
    ∧ TaskStatus.cancelRequested ≠ TaskStatus.finished :=
  ⟨rfl, rfl, by decide⟩

/-- Claim C6 amended: `disconnect()` is idempotent, is a no-op (and in
particular safe) on a client whose `connect()` was never called, cancels
every still-pending outstanding request and clears the correlation table
before returning, and requests cancellation of both background channel
tasks — but it does not await their completion. -/
theorem disconnect_idempotent_cancels (c : Facade) :
    Facade.disconnect (Facade.disconnect c) = Facade.disconnect c
    ∧ Facade.disconnect Facade.fresh = Facade.fresh
    ∧ (Facade.disconnect c).table = []
    ∧ (Facade.disconnect c).running = false
    ∧ (∀ rid, rid ∈ c.table →
        lookupA c.futures rid = some FState.pending →
        lookupA (Facade.disconnect c).futures rid
          = some FState.disconnectCancelled)
    ∧ (c.commandTask = TaskStatus.live →
        (Facade.disconnect c).commandTask = TaskStatus.cancelRequested)
    ∧ (c.eventTask = TaskStatus.live →
        (Facade.disconnect c).eventTask = TaskStatus.cancelRequested) := by
  refine ⟨?_, rfl, rfl, rfl, ?_, ?_, ?_⟩
  · simp only [Facade.disconnect, cancelTask_idem, cancelTableFutures_nil]
  · intro rid hm hp
    simp only [Facade.disconnect, cancelTableFutures, lookupA_mapVal, hp,
      Option.map_some', if_pos hm]
    rfl
  · intro hl; simp [Facade.disconnect, hl, cancelTask]
  · intro hl; simp [Facade.disconnect, hl, cancelTask]

/-- A connected client with one outstanding pending request. -/
def busyFacade : Facade :=
  { commandWs := true, eventWs := true, running := true, table := ["r1"],
    futures := [("r1", FState.pending)], eventQueue := [],
    commandTask := TaskStatus.live, eventTask := TaskStatus.live }

theorem disconnect_idempotent_cancels_w :
    lookupA (Facade.disconnect busyFacade).futures "r1"
      = some FState.disconnectCancelled
    ∧ (Facade.disconnect busyFacade).table = []
    ∧ (Facade.disconnect busyFacade).commandTask
      = TaskStatus.cancelRequested
    ∧ Facade.disconnect (Facade.disconnect busyFacade)
      = Facade.disconnect busyFacade := by
  have h := disconnect_idempotent_cancels busyFacade
  exact ⟨h.2.2.2.2.1 "r1" (List.mem_singleton.mpr rfl) rfl, h.2.2.1,
    h.2.2.2.2.2.1 rfl, h.1⟩

/-- Claim C1: for every request issued via `send_request` (one whose
transport send completed, so the caller entered the 30-second wait; a
`ConnectionError` before the id exists, or a failed `ws.send` whose
exception is re-raised immediately, is an unissued request), at most one
outcome is ever delivered in any interleaving, and the outcome delivered
is one of the three main ones: a response whose `requestId` matches, a
timeout, or cancellation; once the caller is no longer waiting, at least
one outcome has certainly been delivered (asyncio's `wait_for` guarantee
that the wait ends is built into the machine: the caller leaves `waiting`
only through an outcome-delivering event).  Moreover, any id with a
delivered outcome is no longer in the correlation table — removal happens
in the same atomic segment as resolution, even when the resolving receive
loop races the timing-out sender. -/
theorem sendRequest_exactly_one_outcome (evs : List Ev) (s2 : CmdState)
    (rid : String) (hrun : run startState evs = some s2)
    (hsent : Ev.send rid ∈ evs) :
    (s2.log.map Prod.fst).Nodup
    ∧ (∀ o, (rid, o) ∈ s2.log → mainOutcome o)
    ∧ (lookupA s2.callers rid ≠ some Caller.waiting →
        ∃ o, (rid, o) ∈ s2.log)
    ∧ (∀ rid2 o, (rid2, o) ∈ s2.log → rid2 ∉ s2.table)
    ∧ (∀ d, (rid, Outcome.response d) ∈ s2.log →
        frameRequestId d = some rid) := by
  have hinv := run_inv Inv.start hrun
  obtain ⟨evs1, evs2, rfl⟩ := List.append_of_mem hsent
  rw [run_append] at hrun
  obtain ⟨sm, hrun1, hrun2⟩ := hrun
  simp only [run, Option.bind_eq_some] at hrun2
  obtain ⟨sb, hstep, hrest⟩ := hrun2
  obtain ⟨hfresh, rfl⟩ := step_send_shape hstep
  have hinvm := run_inv Inv.start hrun1
  have hwait : lookupA ((rid, Caller.waiting) :: sm.callers) rid
      = some Caller.waiting := lookupA_cons_self _ _ _
  have hsome : (lookupA ((rid, Caller.waiting) :: sm.callers) rid).isSome :=
    by rw [hwait]; rfl
  have hnolog : ∀ o, (rid, o) ∉ sm.log := by
    intro o hmem
    have h2 := hinvm.logFinished rid o hmem
    rw [hfresh] at h2
    exact Option.noConfusion h2
  refine ⟨hinv.logNodup, ?_, ?_, ?_, ?_⟩
  · intro o hmem
    rcases run_new_log_main hrest hsome hmem with hold | hmain
    · exact absurd hold (hnolog o)
    · exact hmain
  · intro hnw
    have h2 := run_callers_some hrest hsome
    cases hl : lookupA s2.callers rid with
    | none => rw [hl] at h2; exact absurd h2 (by simp)
    | some c =>
      cases c with
      | waiting => exact absurd hl hnw
      | finished o => exact ⟨o, hinv.finishedLogged rid o hl⟩
  · intro rid2 o hmem
    exact hinv.finishedNotInTable rid2 o (hinv.logFinished rid2 o hmem)
  · intro d hmem
    exact hinv.responseMatches rid d (hinv.logFinished rid _ hmem)

/-- The state after the race trace in which the `wait_for` timer fires,
then a matching response arrives (and is dropped because the future is
already done — its table entry is still popped), then the `TimeoutError`
surfaces: exactly one outcome, `timedOut`, was delivered. -/
def raceEnd : CmdState :=
  { ws := true, running := true, table := [],
    futures := [("r1", FState.timerCancelled)],
    callers := [("r1", Caller.finished Outcome.timedOut)],
    log := [("r1", Outcome.timedOut)] }

theorem sendRequest_exactly_one_outcome_w :
    run startState [Ev.reconnected, Ev.send "r1", Ev.timeoutFire "r1",
      Ev.recvFrame (JValue.obj [("requestId", JValue.str "r1")]),
      Ev.timeoutRaise "r1"] = some raceEnd
    ∧ (raceEnd.log.map Prod.fst).Nodup
    ∧ mainOutcome Outcome.timedOut
    ∧ "r1" ∉ raceEnd.table := by
  have h := sendRequest_exactly_one_outcome
    [Ev.reconnected, Ev.send "r1", Ev.timeoutFire "r1",
      Ev.recvFrame (JValue.obj [("requestId", JValue.str "r1")]),
      Ev.timeoutRaise "r1"] raceEnd "r1" rfl (by simp)
  refine ⟨rfl, h.1, ?_, ?_⟩
  · exact h.2.1 Outcome.timedOut (List.mem_singleton.mpr rfl)
  · exact h.2.2.2.1 "r1" Outcome.timedOut (List.mem_singleton.mpr rfl)

end OniApi
